import Mathlib

/-!
Verification development for the Encar vehicle-detail parser and its batch
dispatcher.  The Python sources (`parser.py`, `main.py`) are shallowly
embedded: page text is `List Char`, JSON data is the inductive `Json`,
fallible Python code returns `Except String`, and the asynchronous worker
pool is modelled by an explicit completion schedule.
-/

set_option maxRecDepth 8000

namespace Encar

/-! ### Text primitives (models of Python `str` operations on `List Char`) -/

/-- Whitespace characters recognised by Python `str.strip()`. -/
def isPyWs (c : Char) : Bool :=
  c == ' ' || c == '\t' || c == '\n' || c == '\r' || c == '\x0b' || c == '\x0c'

/-- Whitespace skipped by Python `json.loads` between tokens. -/
def isJsonWs (c : Char) : Bool :=
  c == ' ' || c == '\t' || c == '\n' || c == '\r'

/-- Check that the first list is a prefix of the second (model of
`str.startswith`, used to locate substrings). -/
def isPre : List Char → List Char → Bool
  | [], _ => true
  | _ :: _, [] => false
  | a :: as, b :: bs => a == b && isPre as bs

/-- Split a text at the first occurrence of a (non-empty) separator,
returning the parts before and after it; `none` when the separator does not
occur.  This models the separator search shared by Python `str.partition`,
`str.split(sep, 1)` and the `in` test on strings. -/
def splitFirst (sep : List Char) : List Char → Option (List Char × List Char)
  | [] => if sep.isEmpty then some ([], []) else none
  | c :: rest =>
    if isPre sep (c :: rest) then some ([], (c :: rest).drop sep.length)
    else
      match splitFirst sep rest with
      | some (a, b) => some (c :: a, b)
      | none => none

/-- Model of the Python `in` test on strings. -/
def containsSub (sep xs : List Char) : Bool :=
  (splitFirst sep xs).isSome

/-- The part after the first occurrence of the separator, or empty when the
separator is absent: model of `_, _, tail = text.partition(sep)`. -/
def partitionAfter (sep xs : List Char) : List Char :=
  match splitFirst sep xs with
  | some (_, b) => b
  | none => []

/-- Model of Python `str.strip()` (no arguments: strip whitespace). -/
def pstrip (xs : List Char) : List Char :=
  ((xs.dropWhile isPyWs).reverse.dropWhile isPyWs).reverse

/-! ### JSON data and a model of `json.loads`

JSON values as produced by Python `json.loads`: objects keep their key/value
pairs in document order (Python `dict` preserves insertion order).  Numbers
are restricted to integers: the vehicle payloads the parser consumes carry
integer counts, prices and displacements, and no claim involves a float. -/

inductive Json where
  | null : Json
  | bool : Bool → Json
  | int : Int → Json
  | str : String → Json
  | arr : List Json → Json
  | obj : List (String × Json) → Json

/-- Python `dict` lookup on the parsed object pairs: with duplicate keys the
last binding wins, exactly as repeated `dict` insertion does. -/
def jlookup (kvs : List (String × Json)) (k : String) : Option Json :=
  kvs.foldl (fun acc kv => if kv.1 = k then some kv.2 else acc) none

/-- Digit run accumulator used by the number parser. -/
def digitsVal : List Char → Nat → Nat × List Char
  | [], acc => (acc, [])
  | c :: rest, acc =>
    if c.isDigit then digitsVal rest (acc * 10 + (c.toNat - 48)) else (acc, c :: rest)

/-- Parse a JSON integer literal (strict grammar: optional minus sign, no
leading zeros); fails on a fractional or exponent part, as floats are outside
the model. -/
def parseJsonInt : List Char → Option (Int × List Char)
  | xs =>
    let (neg, ys) :=
      match xs with
      | '-' :: t => (true, t)
      | t => (false, t)
    match ys with
    | [] => none
    | c :: t =>
      if c == '0' then
        match t with
        | d :: _ =>
          if d.isDigit || d == '.' || d == 'e' || d == 'E' then none
          else some ((if neg then -0 else 0 : Int), t)
        | [] => some (0, [])
      else if c.isDigit then
        let (v, rest) := digitsVal (c :: t) 0
        match rest with
        | d :: _ =>
          if d == '.' || d == 'e' || d == 'E' then none
          else some ((if neg then -(v : Int) else (v : Int)), rest)
        | [] => some ((if neg then -(v : Int) else (v : Int)), [])
      else none

/-- Value of a hexadecimal digit. -/
def hexVal (c : Char) : Option Nat :=
  if '0' ≤ c ∧ c ≤ '9' then some (c.toNat - 48)
  else if 'a' ≤ c ∧ c ≤ 'f' then some (c.toNat - 87)
  else if 'A' ≤ c ∧ c ≤ 'F' then some (c.toNat - 55)
  else none

/-- Body of a JSON string after the opening quote, up to the closing quote.
Handles the escape sequences of the JSON grammar; `\uXXXX` escapes are decoded
to the corresponding code point (surrogate pairing is outside the model). -/
def parseStrBody : List Char → Option (List Char × List Char)
  | [] => none
  | '"' :: rest => some ([], rest)
  | '\\' :: e :: rest =>
    if e == 'u' then
      match rest with
      | a :: b :: c :: d :: rest2 =>
        match hexVal a, hexVal b, hexVal c, hexVal d with
        | some va, some vb, some vc, some vd =>
          (parseStrBody rest2).map fun (s, r) =>
            (Char.ofNat (((va * 16 + vb) * 16 + vc) * 16 + vd) :: s, r)
        | _, _, _, _ => none
      | _ => none
    else
      match
        (if e == '"' then some '"'
         else if e == '\\' then some '\\'
         else if e == '/' then some '/'
         else if e == 'b' then some '\x08'
         else if e == 'f' then some '\x0c'
         else if e == 'n' then some '\n'
         else if e == 'r' then some '\r'
         else if e == 't' then some '\t'
         else none) with
      | some c => (parseStrBody rest).map fun (s, r) => (c :: s, r)
      | none => none
  | c :: rest =>
    if c.toNat < 32 then none
    else (parseStrBody rest).map fun (s, r) => (c :: s, r)

/-- Object-member loop of the JSON parser, after the opening `{`.  `pv`
parses one nested value; the fuel bounds the number of members and always
exceeds the input length at the call site. -/
def parseMembersF (pv : List Char → Option (Json × List Char)) :
    Nat → List Char → Bool → List (String × Json) → Option (Json × List Char)
  | 0, _, _, _ => none
  | _ + 1, '}' :: rest, first, acc =>
    if first then some (Json.obj acc.reverse, rest) else none
  | fuel + 1, '"' :: rest, _, acc =>
    match parseStrBody rest with
    | none => none
    | some (k, r1) =>
      match r1.dropWhile isJsonWs with
      | ':' :: r2 =>
        match pv r2 with
        | none => none
        | some (v, r3) =>
          match r3.dropWhile isJsonWs with
          | ',' :: r4 =>
            match r4.dropWhile isJsonWs with
            | '"' :: r5 => parseMembersF pv fuel ('"' :: r5) false ((String.mk k, v) :: acc)
            | _ => none
          | '}' :: r4 => some (Json.obj ((String.mk k, v) :: acc).reverse, r4)
          | _ => none
      | _ => none
  | _ + 1, _, _, _ => none

/-- Array-item loop of the JSON parser, after the opening `[`. -/
def parseItemsF (pv : List Char → Option (Json × List Char)) :
    Nat → List Char → Bool → List Json → Option (Json × List Char)
  | 0, _, _, _ => none
  | fuel + 1, xs, first, acc =>
    match xs with
    | ']' :: rest => if first then some (Json.arr acc.reverse, rest) else none
    | other =>
      match pv other with
      | none => none
      | some (v, r1) =>
        match r1.dropWhile isJsonWs with
        | ',' :: r2 => parseItemsF pv fuel (r2.dropWhile isJsonWs) false (v :: acc)
        | ']' :: r2 => some (Json.arr (v :: acc).reverse, r2)
        | _ => none

/-- One step of the JSON value parser: `pv` parses nested values with less
fuel.  Mirrors the grammar accepted by Python `json.loads` (minus floats). -/
def parseValStep (pv : List Char → Option (Json × List Char)) :
    List Char → Option (Json × List Char) :=
  fun xs0 =>
    let xs := xs0.dropWhile isJsonWs
    match xs with
    | [] => none
    | '{' :: rest => parseMembersF pv (rest.length + 1) (rest.dropWhile isJsonWs) true []
    | '[' :: rest => parseItemsF pv (rest.length + 1) (rest.dropWhile isJsonWs) true []
    | '"' :: rest =>
      (parseStrBody rest).map fun (s, r) => (Json.str (String.mk s), r)
    | 't' :: 'r' :: 'u' :: 'e' :: rest => some (Json.bool true, rest)
    | 'f' :: 'a' :: 'l' :: 's' :: 'e' :: rest => some (Json.bool false, rest)
    | 'n' :: 'u' :: 'l' :: 'l' :: rest => some (Json.null, rest)
    | other => (parseJsonInt other).map fun (n, r) => (Json.int n, r)

/-- Fuelled JSON value parser (fuel bounds the nesting depth; it is always
invoked with more fuel than the input length, which suffices since entering a
nested value consumes at least one character). -/
def parseVal : Nat → List Char → Option (Json × List Char) :=
  Nat.rec (fun _ => none) (fun _ ih => parseValStep ih)

/-- Model of `json.loads`: parse one JSON document with optional surrounding
whitespace; `none` models `json.JSONDecodeError`. -/
def jparse (xs : List Char) : Option Json :=
  match parseVal (xs.length + 1) xs with
  | some (v, rest) => if (rest.dropWhile isJsonWs).isEmpty then some v else none
  | none => none

example : jparse "null".toList = some Json.null := rfl
example : jparse " 123 ".toList = some (Json.int 123) := rfl
example : jparse "-45".toList = some (Json.int (-45)) := rfl

/-! ### Extractor (`extract_preloaded_state` in `parser.py`)

The script blocks of the page are collected by a model of the standard
library HTML parser used by `_ScriptCollector`: a `<script …>` start tag
switches to raw-text mode, everything up to the literal `</script>` end tag
is the block body, and blocks containing the marker are kept in document
order.  The model assumes lowercase `script` tags whose start tag contains no
`>` inside attribute values, which covers the markup forms the claims are
about. -/

/-- The marker literal `__PRELOADED_STATE__`. -/
def markerChars : List Char :=
  ['_', '_', 'P', 'R', 'E', 'L', 'O', 'A', 'D', 'E', 'D', '_', 'S', 'T', 'A', 'T', 'E', '_', '_']

/-- The seven characters opening a script start tag. -/
def openTagChars : List Char := ['<', 's', 'c', 'r', 'i', 'p', 't']

/-- The literal `</script>` end tag. -/
def closeTagChars : List Char := ['<', '/', 's', 'c', 'r', 'i', 'p', 't', '>']

/-- Characters that may continue an HTML tag name (so `<scripty>` is not a
script tag). -/
def isTagNameChar (c : Char) : Bool :=
  c.isAlpha || c.isDigit || c == '-' || c == '.' || c == ':' || c == '_'

/-- Does the text begin with a `script` start tag? -/
def isScriptOpen (xs : List Char) : Bool :=
  isPre openTagChars xs &&
    (match xs.drop 7 with
     | c :: _ => !isTagNameChar c
     | [] => false)

/-- Scan the markup for script blocks; fuel always exceeds the input length
(each step consumes at least one character).  Returns the bodies of the
script blocks that contain the marker, in document order. -/
def scanGo : Nat → List Char → List (List Char)
  | 0, _ => []
  | _ + 1, [] => []
  | fuel + 1, c :: rest =>
    if isScriptOpen (c :: rest) then
      match splitFirst ['>'] ((c :: rest).drop 7) with
      | none => []
      | some (_, afterTag) =>
        match splitFirst closeTagChars afterTag with
        | none => []
        | some (body, rest2) =>
          let tail := scanGo fuel rest2
          if containsSub markerChars body then body :: tail else tail
    else scanGo fuel rest

/-- All script-block bodies of the page that contain the marker (model of the
`_ScriptCollector` pass of `extract_preloaded_state`). -/
def scanScripts (html : List Char) : List (List Char) :=
  scanGo (html.length + 1) html

/-- Safety guard for unexpected script bloat (`MAX_STATE_CHARS`). -/
def MAX_STATE_CHARS : Nat := 5000000

/-- The candidate JSON text isolated from one script body by `_extract_json`:
everything after the marker and the following `=` from the first `{`, cut at
a stray `</script>`, stripped, and cut at the first `;`. `none` models the
"payload not found" branch (no `{` after the `=`). -/
def extractBlob (script_body : List Char) : Option (List Char) :=
  let tail := partitionAfter markerChars script_body
  let after_equals := partitionAfter ['='] tail
  match splitFirst ['{'] after_equals with
  | none => none
  | some (_, b) =>
    let blob := '{' :: b
    let blob :=
      match splitFirst closeTagChars blob with
      | some (a, _) => a
      | none => blob
    let blob := pstrip blob
    let blob :=
      match splitFirst [';'] blob with
      | some (a, _) => pstrip a
      | none => blob
    some blob

/-- Model of the inner `_extract_json`: isolate the candidate JSON text, cap
its size, and decode it.  The decode-failure message keeps a fixed suffix in
place of the Python exception detail. -/
def _extract_json (script_body : List Char) : Except String Json :=
  match extractBlob script_body with
  | none => Except.error "Preloaded state JSON payload not found."
  | some blob =>
    if blob.length > MAX_STATE_CHARS then
      Except.error "Preloaded state payload too large."
    else
      match jparse blob with
      | some v => Except.ok v
      | none => Except.error "Failed to decode preloaded state: invalid JSON"

/-- The candidate loop of `extract_preloaded_state`: try candidates in
document order, return the first success, and after exhausting them fail with
the last error (or the fallback message when no candidate was tried). -/
def _extract_loop : List (List Char) → Option String → Except String Json
  | [], last =>
    Except.error
      (match last with
       | some m => m
       | none => "Failed to decode preloaded state.")
  | c :: rest, _last =>
    match _extract_json c with
    | Except.ok v => Except.ok v
    | Except.error e => _extract_loop rest (some e)

/-- Model of `extract_preloaded_state`: collect marked script blocks, fail
when there are none, otherwise run the candidate loop. -/
def extract_preloaded_state (html : List Char) : Except String Json :=
  match scanScripts html with
  | [] => Except.error "Preloaded state marker not found."
  | c :: cs => _extract_loop (c :: cs) none

example :
    extract_preloaded_state
      ("<html><body><script>window.__PRELOADED_STATE__ = " ++
        "\x7b\"a\": 1\x7d;</script></body></html>").toList =
      Except.ok (Json.obj [("a", Json.int 1)]) := rfl

example :
    extract_preloaded_state "<script>console.log(1);</script>".toList =
      Except.error "Preloaded state marker not found." := rfl

/-! ### Python value helpers

Dynamic Python values flowing through `build_output` are represented by
`Json`, with `Json.null` playing the role of Python `None`.  Attribute errors
raised by `.get`/`.strip`/`.split` on non-`dict`/non-`str` values are modelled
by `Except.error`; the message keeps the exception type and attribute but not
the full CPython wording. -/

/-- Python type name of a value, used in error messages. -/
def pyTypeName : Json → String
  | Json.null => "NoneType"
  | Json.bool _ => "bool"
  | Json.int _ => "int"
  | Json.str _ => "str"
  | Json.arr _ => "list"
  | Json.obj _ => "dict"

/-- AttributeError message for a missing attribute. -/
def attrMsg (v : Json) (meth : String) : String :=
  "AttributeError: " ++ pyTypeName v ++ " object has no attribute " ++ meth

/-- Model of `value.get(key)` (default `None`): key absent and key mapped to
`null` both yield `None`; calling it on a non-`dict` raises. -/
def pyGet (j : Json) (k : String) : Except String Json :=
  match j with
  | Json.obj kvs => Except.ok ((jlookup kvs k).getD Json.null)
  | _ => Except.error (attrMsg j "get")

/-- Model of `value.get(key, default)`: the default applies only when the key
is absent — a key explicitly bound to `null` returns `None`, not the
default. -/
def pyGetD (j : Json) (k : String) (d : Json) : Except String Json :=
  match j with
  | Json.obj kvs => Except.ok ((jlookup kvs k).getD d)
  | _ => Except.error (attrMsg j "get")

/-- Python truthiness. -/
def pyTruthy : Json → Bool
  | Json.null => false
  | Json.bool b => b
  | Json.int n => !(n == 0)
  | Json.str s => !(s == "")
  | Json.arr xs => !xs.isEmpty
  | Json.obj kvs => !kvs.isEmpty

/-- Is the value Python `None`? -/
def isNull : Json → Bool
  | Json.null => true
  | _ => false

/-- Digit run to its numeric value. -/
def digitsToNat (ds : List Char) : Nat :=
  ds.foldl (fun acc c => acc * 10 + (c.toNat - 48)) 0

/-- Model of `int(string)`: optional surrounding whitespace and sign, then a
non-empty digit run (digit-group underscores are outside the model). -/
def parsePyInt (xs : List Char) : Option Int :=
  let t := pstrip xs
  let core : List Char → Option Nat := fun ds =>
    if !ds.isEmpty && ds.all Char.isDigit then some (digitsToNat ds) else none
  match t with
  | '-' :: ds => (core ds).map fun v => -(v : Int)
  | '+' :: ds => (core ds).map fun v => (v : Int)
  | ds => (core ds).map fun v => (v : Int)

/-- Model of `int(value)` for the value kinds of the embedding: ints pass
through, bools become 0/1, numeric strings are parsed; everything else is a
conversion error (`TypeError`/`ValueError`). -/
def pyIntOf : Json → Option Int
  | Json.int n => some n
  | Json.bool b => some (if b then 1 else 0)
  | Json.str s => parsePyInt s.data
  | _ => none

/-- Model of `str(value)`; container reprs are abbreviated, which no claim
depends on. -/
def pyStr : Json → String
  | Json.str s => s
  | Json.int n => toString n
  | Json.bool b => if b then "True" else "False"
  | Json.null => "None"
  | Json.arr _ => "[...]"
  | Json.obj _ => "\x7b...\x7d"

/-- Python `str.strip()` on a `String`. -/
def pystripS (s : String) : String :=
  String.mk (pstrip s.data)

/-- Drop the pairs whose value is `None` (`if v is not None` pruning). -/
def dropNulls (kvs : List (String × Json)) : List (String × Json) :=
  kvs.filter fun kv => !isNull kv.2

/-- Drop the pairs whose value is falsy (`if v` pruning). -/
def dropFalsy (kvs : List (String × Json)) : List (String × Json) :=
  kvs.filter fun kv => pyTruthy kv.2

/-! ### Normalizer transforms (`parser.py`) -/

/-- Model of `normalize_price`: `None` passes through, otherwise
`int(raw_price) * 10_000`. -/
def normalize_price (raw_price : Json) : Except String Json :=
  match raw_price with
  | Json.null => Except.ok Json.null
  | v =>
    match pyIntOf v with
    | some n => Except.ok (Json.int (n * 10000))
    | none => Except.error "int() argument is not a valid integer"

/-- Round hundredths-of-a-liter (cubic centimeters over 100) to the nearest
tenth of a liter.  Exact midpoints round to even, modelling the rounding of
`f"\x7bliters:.1f\x7d"`; on midpoint inputs (cc ≡ 50 mod 100) CPython rounds
the nearest binary double instead, which can differ — no claim touches a
midpoint. -/
def roundTenths (m : Nat) : Nat :=
  let q := m / 100
  let r := m % 100
  if r > 50 then q + 1
  else if r < 50 then q
  else if q % 2 = 0 then q else q + 1

/-- Render tenths of a liter the way
`f"\x7bliters:.1f\x7d".rstrip("0").rstrip(".")` does: one decimal digit,
dropped when zero. -/
def fmtTenths (t : Nat) : String :=
  if t % 10 = 0 then toString (t / 10)
  else toString (t / 10) ++ "." ++ toString (t % 10)

/-- Engine displacement string for a non-zero displacement value. -/
def engineStr (n : Int) : String :=
  (if n < 0 then "-" else "") ++ fmtTenths (roundTenths n.natAbs) ++ "L"

/-- Model of `format_engine`: `None` and `0` (including `False`, which Python
compares equal to `0`) yield `None`; other ints (and `True`, an int in
Python) are formatted; non-numeric values fail in the division. -/
def format_engine (displacement_cc : Json) : Except String Json :=
  match displacement_cc with
  | Json.null => Except.ok Json.null
  | Json.int n =>
    if n = 0 then Except.ok Json.null else Except.ok (Json.str (engineStr n))
  | Json.bool b =>
    if b then Except.ok (Json.str (engineStr 1)) else Except.ok Json.null
  | v => Except.error ("TypeError: unsupported operand type " ++ pyTypeName v ++ " for division")

/-- Transmission translation table. -/
def transMap : List (String × String) := [("오토", "Automatic"), ("수동", "Manual")]

/-- Model of `translate_transmission`: falsy input yields `None`, recognised
stripped labels are translated, unrecognised labels pass through stripped,
and truthy non-strings fail at `.strip()`. -/
def translate_transmission (value : Json) : Except String Json :=
  if !pyTruthy value then Except.ok Json.null
  else
    match value with
    | Json.str s =>
      let t := pystripS s
      Except.ok (Json.str ((transMap.lookup t).getD t))
    | v => Except.error (attrMsg v "strip")

/-- Fuel-name translation table. -/
def fuelNameMap : List (String × String) :=
  [("가솔린", "Gasoline"), ("디젤", "Diesel"), ("하이브리드", "Hybrid"),
   ("전기", "Electric"), ("LPG", "LPG")]

/-- Model of `translate_fuel` (same shape as `translate_transmission`). -/
def translate_fuel (value : Json) : Except String Json :=
  if !pyTruthy value then Except.ok Json.null
  else
    match value with
    | Json.str s =>
      let t := pystripS s
      Except.ok (Json.str ((fuelNameMap.lookup t).getD t))
    | v => Except.error (attrMsg v "strip")

/-- Numeric fuel-code table. -/
def fuelCodeMap : List (String × String) :=
  [("001", "Gasoline"), ("002", "Diesel"), ("003", "LPG"),
   ("004", "Electric"), ("005", "Hybrid"), ("006", "Hydrogen")]

/-- Model of `classify_fuel`: the numeric-code table is consulted first and
wins whenever `fuelCd` is one of its keys; otherwise the free-text
`fuelName` is translated.  Unhashable values for `fuelCd` raise in the `in`
test, as in Python. -/
def classify_fuel (spec : Json) : Except String Json := do
  let cd ← pyGet spec "fuelCd"
  match cd with
  | Json.str c =>
    match fuelCodeMap.lookup c with
    | some label => pure (Json.str label)
    | none => translate_fuel (← pyGet spec "fuelName")
  | Json.arr _ => Except.error "TypeError: unhashable type list"
  | Json.obj _ => Except.error "TypeError: unhashable type dict"
  | _ => translate_fuel (← pyGet spec "fuelName")

/-- Color translation table (`COLOR_MAP`). -/
def colorMap : List (String × String) :=
  [("검정색", "Black"), ("흰색", "White"), ("화이트", "White"), ("은색", "Silver"),
   ("회색", "Gray"), ("빨간색", "Red"), ("파란색", "Blue"), ("청색", "Blue"),
   ("초록색", "Green"), ("갈색", "Brown"), ("베이지", "Beige"), ("노란색", "Yellow"),
   ("주황색", "Orange")]

/-- Is every character ASCII (model of `text.encode("ascii")` succeeding)? -/
def isAsciiStr (s : String) : Bool :=
  s.data.all fun c => c.toNat < 128

/-- Model of `to_english`, parameterised by the external `unidecode`
transliteration collaborator `translit` (an arbitrary total map): falsy
input yields `None`; the stripped text is looked up in the color table, kept
as is when ASCII, and transliterated otherwise. -/
def to_english (translit : String → String) (text : Json) : Except String Json :=
  if !pyTruthy text then Except.ok Json.null
  else
    match text with
    | Json.str s =>
      let t := pystripS s
      match colorMap.lookup t with
      | some e => Except.ok (Json.str e)
      | none =>
        if isAsciiStr t then Except.ok (Json.str t)
        else Except.ok (Json.str (translit t))
    | v => Except.error (attrMsg v "strip")

/-- Model of `extract_year`: a truthy `formYear` is converted with `int()`;
otherwise the first four characters of `str(yearMonth or "")` are used when
they are digits; else `None`. -/
def extract_year (category : Json) : Except String Json := do
  let fy ← pyGet category "formYear"
  if pyTruthy fy then
    match pyIntOf fy with
    | some n => pure (Json.int n)
    | none => Except.error "int() argument is not a valid integer"
  else
    let ym ← pyGet category "yearMonth"
    let s := pyStr (if pyTruthy ym then ym else Json.str "")
    let first4 := s.data.take 4
    if s.data.length ≥ 4 && first4.all Char.isDigit then
      pure (Json.int (digitsToNat first4))
    else
      pure Json.null

/-- Model of `format_date`: falsy input yields `None`; a string is truncated
before its first `"T"`; truthy non-strings fail at `.split`. -/
def format_date (date_str : Json) : Except String Json :=
  if !pyTruthy date_str then Except.ok Json.null
  else
    match date_str with
    | Json.str s => Except.ok (Json.str (String.mk (s.data.takeWhile (· ≠ 'T'))))
    | v => Except.error (attrMsg v "split")

/-- Model of `build_output`, parameterised by the transliteration collaborator.
The `let` sequence follows the statement and dict-literal evaluation order of
the source, so that the first failing operation decides the error. -/
def build_output (translit : String → String) (vehicle_id : String) (state : Json) :
    Except String Json := do
  let cars ← pyGetD state "cars" (Json.obj [])
  let base ← pyGetD cars "base" (Json.obj [])
  let category ← pyGetD base "category" (Json.obj [])
  let advertisement ← pyGetD base "advertisement" (Json.obj [])
  let spec ← pyGetD base "spec" (Json.obj [])
  let manage ← pyGetD base "manage" (Json.obj [])
  let condition_base ← pyGetD base "condition" (Json.obj [])
  let engine ← format_engine (← pyGet spec "displacement")
  let transmission ← translate_transmission (← pyGet spec "transmissionName")
  let fuel_type ← classify_fuel spec
  let color ← to_english translit (← pyGet spec "colorName")
  let body_type ← pyGet spec "bodyName"
  let seats ← pyGet spec "seatCount"
  let specifications :=
    dropNulls [("engine", engine), ("transmission", transmission),
      ("fuel_type", fuel_type), ("color", color), ("body_type", body_type),
      ("seats", seats)]
  let registered_at ← format_date (← pyGet manage "registDateTime")
  let first_advertised_at ← format_date (← pyGet manage "firstAdvertisedDateTime")
  let modified_at ← format_date (← pyGet manage "modifyDateTime")
  let timestamps :=
    dropFalsy [("registered_at", registered_at),
      ("first_advertised_at", first_advertised_at), ("modified_at", modified_at)]
  let view_count ← pyGet manage "viewCount"
  let favorite_count ← pyGet manage "subscribeCount"
  let ad_type ← pyGet advertisement "advertisementType"
  let detailFlags ← pyGetD base "detailFlags" (Json.obj [])
  let adStatus ← pyGet detailFlags "adStatus"
  let ad_status ← if pyTruthy adStatus then pure adStatus else pyGet advertisement "status"
  let diagnosis_car ← pyGet advertisement "diagnosisCar"
  let metrics :=
    dropNulls [("view_count", view_count), ("favorite_count", favorite_count),
      ("ad_type", ad_type), ("ad_status", ad_status), ("diagnosis_car", diagnosis_car)]
  let accident ← pyGetD condition_base "accident" (Json.obj [])
  let accident_record_view ← pyGet accident "recordView"
  let inspection ← pyGetD condition_base "inspection" (Json.obj [])
  let inspection_formats ← pyGet inspection "formats"
  let seizing1 ← pyGetD condition_base "seizing" (Json.obj [])
  let seizing_count ← pyGet seizing1 "seizingCount"
  let seizing2 ← pyGetD condition_base "seizing" (Json.obj [])
  let pledge_count ← pyGet seizing2 "pledgeCount"
  let condition :=
    dropNulls [("accident_record_view", accident_record_view),
      ("inspection_formats", inspection_formats), ("seizing_count", seizing_count),
      ("pledge_count", pledge_count)]
  let vehicleIdV ← pyGet base "vehicleId"
  let idv := pyStr (if pyTruthy vehicleIdV then vehicleIdV else Json.str vehicle_id)
  let vin ← pyGet base "vin"
  let mk1 ← pyGet category "manufacturerEnglishName"
  let make ← if pyTruthy mk1 then pure mk1 else pyGet category "manufacturerName"
  let md1 ← pyGet category "modelGroupEnglishName"
  let md2 ← if pyTruthy md1 then pure md1 else pyGet category "modelGroupName"
  let modelV ← if pyTruthy md2 then pure md2 else pyGet category "modelName"
  let tr1 ← pyGet category "gradeEnglishName"
  let trimV ← if pyTruthy tr1 then pure tr1 else pyGet category "gradeName"
  let year ← extract_year category
  let price ← normalize_price (← pyGet advertisement "price")
  let mileage ← pyGet spec "mileage"
  let fuel ← classify_fuel spec
  let url := Json.str ("https://fem.encar.com/cars/detail/" ++ vehicle_id)
  let data :=
    [("id", Json.str idv), ("vin", vin), ("make", make), ("model", modelV),
     ("trim", trimV), ("year", year), ("price", price), ("mileage", mileage),
     ("fuel", fuel), ("url", url), ("card_url", url)]
  let data := data ++ (if specifications.isEmpty then [] else [("specifications", Json.obj specifications)])
  let data := data ++ (if timestamps.isEmpty then [] else [("timestamps", Json.obj timestamps)])
  let data := data ++ (if metrics.isEmpty then [] else [("metrics", Json.obj metrics)])
  let data := data ++ (if condition.isEmpty then [] else [("condition", Json.obj condition)])
  pure (Json.obj (dropNulls data))

/-! ### Validator (`validate_state` and the pydantic models)

The pydantic `BaseCarModel` validation is modelled field by field in
declaration order: unknown keys are ignored (`extra="ignore"`), every leaf
field is optional (`None` accepted), the five sub-models are required and must
be objects, and `detailFlags` is an optional sub-model.  Error entries render
as `msg @ loc` and the first three join into the failure message, as in
`validate_state`.  Lax value coercions are modelled only as far as the claims
need: plain-typed leaves validate, plainly mistyped leaves fail. -/

/-- Leaf field types of the pydantic models. -/
inductive LeafTy where
  | tint : LeafTy
  | tstr : LeafTy
  | tbool : LeafTy
  | tdict : LeafTy

/-- Error message for a mistyped leaf. -/
def leafErrMsg : LeafTy → String
  | LeafTy.tint => "Input should be a valid integer"
  | LeafTy.tstr => "Input should be a valid string"
  | LeafTy.tbool => "Input should be a valid boolean"
  | LeafTy.tdict => "Input should be a valid dictionary"

/-- Does a present value validate against an optional leaf field?  `None` is
accepted everywhere; ints accept numeric strings and bools accept 0/1 and
common string spellings, approximating pydantic lax coercion. -/
def leafOk : LeafTy → Json → Bool
  | _, Json.null => true
  | LeafTy.tint, Json.int _ => true
  | LeafTy.tint, Json.str s => (parsePyInt s.data).isSome
  | LeafTy.tint, _ => false
  | LeafTy.tstr, Json.str _ => true
  | LeafTy.tstr, _ => false
  | LeafTy.tbool, Json.bool _ => true
  | LeafTy.tbool, Json.int n => n == 0 || n == 1
  | LeafTy.tbool, Json.str s =>
    ["true", "false", "True", "False", "1", "0", "yes", "no", "on", "off"].contains s
  | LeafTy.tbool, _ => false
  | LeafTy.tdict, Json.obj _ => true
  | LeafTy.tdict, _ => false

/-- Leaf fields of `CategoryModel`. -/
def categoryFields : List (String × LeafTy) :=
  [("manufacturerEnglishName", LeafTy.tstr), ("manufacturerName", LeafTy.tstr),
   ("modelGroupEnglishName", LeafTy.tstr), ("modelGroupName", LeafTy.tstr),
   ("modelName", LeafTy.tstr), ("gradeEnglishName", LeafTy.tstr),
   ("gradeName", LeafTy.tstr), ("yearMonth", LeafTy.tstr), ("formYear", LeafTy.tint)]

/-- Leaf fields of `AdvertisementModel`. -/
def advertisementFields : List (String × LeafTy) :=
  [("price", LeafTy.tint), ("advertisementType", LeafTy.tstr),
   ("status", LeafTy.tstr), ("diagnosisCar", LeafTy.tbool)]

/-- Leaf fields of `SpecModel`. -/
def specFields : List (String × LeafTy) :=
  [("displacement", LeafTy.tint), ("transmissionName", LeafTy.tstr),
   ("fuelCd", LeafTy.tstr), ("fuelName", LeafTy.tstr), ("colorName", LeafTy.tstr),
   ("seatCount", LeafTy.tint), ("bodyName", LeafTy.tstr), ("mileage", LeafTy.tint)]

/-- Leaf fields of `ManageModel`. -/
def manageFields : List (String × LeafTy) :=
  [("registDateTime", LeafTy.tstr), ("firstAdvertisedDateTime", LeafTy.tstr),
   ("modifyDateTime", LeafTy.tstr), ("subscribeCount", LeafTy.tint),
   ("viewCount", LeafTy.tint)]

/-- Leaf fields of `ConditionModel` (each an `Optional[Dict]`). -/
def conditionFields : List (String × LeafTy) :=
  [("accident", LeafTy.tdict), ("inspection", LeafTy.tdict), ("seizing", LeafTy.tdict)]

/-- Leaf fields of `DetailFlagsModel`. -/
def detailFlagsFields : List (String × LeafTy) :=
  [("adStatus", LeafTy.tstr)]

/-- Validation errors contributed by the present leaf fields of one
sub-model. -/
def leafErrs (parent : String) (fields : List (String × LeafTy))
    (kvs : List (String × Json)) : List String :=
  fields.filterMap fun ft =>
    match jlookup kvs ft.1 with
    | none => none
    | some v =>
      if leafOk ft.2 v then none
      else some (leafErrMsg ft.2 ++ " @ " ++ parent ++ "/" ++ ft.1)

/-- Validation errors of an optional leaf field of `BaseCarModel` itself. -/
def optLeafErrs (name : String) (ty : LeafTy) (mv : Option Json) : List String :=
  match mv with
  | none => []
  | some v => if leafOk ty v then [] else [leafErrMsg ty ++ " @ " ++ name]

/-- Validation errors of one required sub-model field. -/
def subModelErrs (name modelName : String) (fields : List (String × LeafTy))
    (mv : Option Json) : List String :=
  match mv with
  | none => ["Field required @ " ++ name]
  | some (Json.obj kvs) => leafErrs name fields kvs
  | some _ =>
    ["Input should be a valid dictionary or instance of " ++ modelName ++ " @ " ++ name]

/-- Validation errors of the optional `detailFlags` sub-model. -/
def optModelErrs (name modelName : String) (fields : List (String × LeafTy))
    (mv : Option Json) : List String :=
  match mv with
  | none => []
  | some Json.null => []
  | some (Json.obj kvs) => leafErrs name fields kvs
  | some _ =>
    ["Input should be a valid dictionary or instance of " ++ modelName ++ " @ " ++ name]

/-- All validation errors of `BaseCarModel.model_validate(base)`, in field
declaration order. -/
def baseErrors (bkvs : List (String × Json)) : List String :=
  optLeafErrs "vehicleId" LeafTy.tint (jlookup bkvs "vehicleId") ++
  optLeafErrs "vin" LeafTy.tstr (jlookup bkvs "vin") ++
  subModelErrs "category" "CategoryModel" categoryFields (jlookup bkvs "category") ++
  subModelErrs "advertisement" "AdvertisementModel" advertisementFields (jlookup bkvs "advertisement") ++
  subModelErrs "spec" "SpecModel" specFields (jlookup bkvs "spec") ++
  subModelErrs "manage" "ManageModel" manageFields (jlookup bkvs "manage") ++
  subModelErrs "condition" "ConditionModel" conditionFields (jlookup bkvs "condition") ++
  optModelErrs "detailFlags" "DetailFlagsModel" detailFlagsFields (jlookup bkvs "detailFlags")

/-- Join strings with a separator (`sep.join`). -/
def sjoin (sep : String) : List String → String
  | [] => ""
  | [x] => x
  | x :: rest => x ++ sep ++ sjoin sep rest

/-- Model of `validate_state`: the `cars` member must be a dict, its `base`
member must be a dict, and `base` must validate against `BaseCarModel`; the
first three validation errors are reported as `msg @ loc` joined by `"; "`. -/
def validate_state (state : Json) : Except String Unit :=
  match state with
  | Json.obj skvs =>
    match jlookup skvs "cars" with
    | some (Json.obj ckvs) =>
      match jlookup ckvs "base" with
      | some (Json.obj bkvs) =>
        match baseErrors bkvs with
        | [] => Except.ok ()
        | errs =>
          Except.error ("cars.base validation failed: " ++ sjoin "; " (errs.take 3))
      | _ => Except.error "State missing `cars.base` object."
    | _ => Except.error "State missing `cars` object."
  | v => Except.error (attrMsg v "get")

/-- Model of `parse_vehicle` on already-fetched markup (the network fetch is
an external collaborator): extract, validate, then normalize. -/
def parse_vehicle (translit : String → String) (vehicle_id : String)
    (html : List Char) : Except String Json := do
  let state ← extract_preloaded_state html
  let _ ← validate_state state
  let out ← build_output translit vehicle_id state
  pure (Json.obj [("data", out)])

/-! ### Specification-side definitions for the validator claim -/

/-- Is the optional value present as an object? -/
def isObjOpt : Option Json → Bool
  | some (Json.obj _) => true
  | _ => false

/-- The five required sub-object names. -/
def reqKeys : List String :=
  ["category", "advertisement", "spec", "manage", "condition"]

/-- Acceptance predicate written from the specification text, independently
of `validate_state`: a top-level container object with a nested `base`
object in which `category`, `advertisement`, `spec`, `manage` and
`condition` are each present as objects; individual leaf fields are all
optional and unknown fields are ignored. -/
def specRequiredShape (state : Json) : Bool :=
  match state with
  | Json.obj skvs =>
    match jlookup skvs "cars" with
    | some (Json.obj ckvs) =>
      match jlookup ckvs "base" with
      | some (Json.obj bkvs) => reqKeys.all fun k => isObjOpt (jlookup bkvs k)
      | _ => false
    | _ => false
  | _ => false

/-- Plain typing of a present leaf value: absent coercions, i.e. the leaf is
`null` or carries exactly the declared type. -/
def plainLeafOk : LeafTy → Json → Bool
  | _, Json.null => true
  | LeafTy.tint, Json.int _ => true
  | LeafTy.tstr, Json.str _ => true
  | LeafTy.tbool, Json.bool _ => true
  | LeafTy.tdict, Json.obj _ => true
  | _, _ => false

/-- Plain typing for an optional base-level leaf. -/
def optPlain (ty : LeafTy) : Option Json → Bool
  | none => true
  | some v => plainLeafOk ty v

/-- Plain typing for the present leaves of a required sub-model (non-objects
are left to the shape check). -/
def subPlain (fields : List (String × LeafTy)) : Option Json → Bool
  | none => true
  | some (Json.obj kvs) =>
    fields.all fun ft =>
      match jlookup kvs ft.1 with
      | none => true
      | some v => plainLeafOk ft.2 v
  | some _ => true

/-- Plain typing for the optional `detailFlags` sub-model. -/
def optSubPlain (fields : List (String × LeafTy)) : Option Json → Bool
  | none => true
  | some Json.null => true
  | some (Json.obj kvs) =>
    fields.all fun ft =>
      match jlookup kvs ft.1 with
      | none => true
      | some v => plainLeafOk ft.2 v
  | some _ => false

/-- All leaf fields of a base object are absent or plainly typed. -/
def plainBase (bkvs : List (String × Json)) : Bool :=
  optPlain LeafTy.tint (jlookup bkvs "vehicleId") &&
  optPlain LeafTy.tstr (jlookup bkvs "vin") &&
  subPlain categoryFields (jlookup bkvs "category") &&
  subPlain advertisementFields (jlookup bkvs "advertisement") &&
  subPlain specFields (jlookup bkvs "spec") &&
  subPlain manageFields (jlookup bkvs "manage") &&
  subPlain conditionFields (jlookup bkvs "condition") &&
  optSubPlain detailFlagsFields (jlookup bkvs "detailFlags")

/-- All leaf fields of the state are absent or plainly typed (the scope on
which the validator claim is settled; value coercions are orthogonal to the
shape policy the claim describes). -/
def plainLeaves (state : Json) : Bool :=
  match state with
  | Json.obj skvs =>
    match jlookup skvs "cars" with
    | some (Json.obj ckvs) =>
      match jlookup ckvs "base" with
      | some (Json.obj bkvs) => plainBase bkvs
      | _ => true
    | _ => true
  | _ => true

/-- Field access along a key path, for stating properties of outputs. -/
def jat : Json → List String → Option Json
  | j, [] => some j
  | Json.obj kvs, k :: ks =>
    match jlookup kvs k with
    | some v => jat v ks
    | none => none
  | _, _ :: _ => none

/-! ### Dispatcher (`main.py`)

The bounded worker pool of `_process_vehicle_ids` is modelled by an explicit
completion schedule: tasks are tagged with their original index, workers
complete them in an arbitrary interleaving, and each completion appends to the
shared results/failures collections atomically (completions run on the single
event-loop thread).  A schedule is any permutation of the task indices; the
worker count only influences which schedules can arise, not the effect of a
given schedule.  The per-item pipeline is abstracted as a function
`parse : identifier → Except error output`, standing for
`parse_vehicle` together with its fetch collaborator. -/

/-- Aggregate returned by the dispatcher. -/
structure BatchResult where
  items : List Json
  succeeded : Nat
  failures : List (String × String)

/-- The storage-cap test `store_limit is None or len(results) < store_limit`. -/
def storeAllowed : Option Nat → Nat → Bool
  | none, _ => true
  | some l, len => len < l

/-- Effect of completing the task with index `i` on the shared state
(results, success counter, failures): the success/failure bookkeeping of the
`worker` loop body. -/
def runStep (ids : List String) (parse : String → Except String Json)
    (storeLimit : Option Nat)
    (acc : List (Nat × Json) × Nat × List (String × String)) (i : Nat) :
    List (Nat × Json) × Nat × List (String × String) :=
  match ids[i]? with
  | none => acc
  | some vid =>
    match parse vid with
    | Except.ok out =>
      ((if storeAllowed storeLimit acc.1.length then acc.1 ++ [(i, out)] else acc.1),
        acc.2.1 + 1, acc.2.2)
    | Except.error e => (acc.1, acc.2.1, acc.2.2 ++ [(vid, e)])

/-- Shared state after all tasks completed in schedule order. -/
def gatherResults (ids : List String) (parse : String → Except String Json)
    (storeLimit : Option Nat) (sched : List Nat) :
    List (Nat × Json) × Nat × List (String × String) :=
  sched.foldl (runStep ids parse storeLimit) ([], 0, [])

/-- The final re-sort `sorted(results, key=lambda pair: pair[0])`. -/
def sortByIdx (l : List (Nat × Json)) : List (Nat × Json) :=
  l.insertionSort fun a b => a.1 ≤ b.1

/-- Model of `_process_vehicle_ids`: run all tasks under a completion
schedule, then restore input order for the retained successes. -/
def _process_vehicle_ids (ids : List String) (parse : String → Except String Json)
    (storeLimit : Option Nat) (sched : List Nat) : BatchResult :=
  let res := gatherResults ids parse storeLimit sched
  ⟨(sortByIdx res.1).map Prod.snd, res.2.1, res.2.2⟩

/-- The indexed success produced by task `i`, if any. -/
def successAt (ids : List String) (parse : String → Except String Json) (i : Nat) :
    Option (Nat × Json) :=
  match ids[i]? with
  | some vid =>
    match parse vid with
    | Except.ok out => some (i, out)
    | Except.error _ => none
  | none => none

/-- The failure entry produced by task `i`, if any. -/
def failureAt (ids : List String) (parse : String → Except String Json) (i : Nat) :
    Option (String × String) :=
  match ids[i]? with
  | some vid =>
    match parse vid with
    | Except.ok _ => none
    | Except.error e => some (vid, e)
  | none => none

/-- The indexed successes in original input order. -/
def successPairs (ids : List String) (parse : String → Except String Json) :
    List (Nat × Json) :=
  (List.range ids.length).filterMap (successAt ids parse)

/-- The success outputs in original input order. -/
def successesInOrder (ids : List String) (parse : String → Except String Json) :
    List Json :=
  (successPairs ids parse).map Prod.snd

/-- The raw concurrency value before clamping: absent or `None` hints
default to 3, `int()`-convertible values are used, and conversion failures
(`TypeError`/`ValueError`) default to 3. -/
def _concurrency_value (payload : List (String × Json)) : Int :=
  match jlookup payload "maxConcurrency" with
  | none => 3
  | some Json.null => 3
  | some v =>
    match pyIntOf v with
    | some n => n
    | none => 3

/-- Model of `_parse_max_concurrency`: the raw value clamped to `[1, 10]`
by `max(1, min(value, 10))`. -/
def _parse_max_concurrency (payload : List (String × Json)) : Int :=
  max 1 (min (_concurrency_value payload) 10)

/-- The worker count `min(max_concurrency, total)` used by
`_process_vehicle_ids`. -/
def effectiveWorkerCount (payload : List (String × Json)) (ids : List String) : Int :=
  min (_parse_max_concurrency payload) (ids.length : Int)

/-! ### States used as concrete inputs in the claims -/

/-- A minimal validating state whose `spec` sub-object holds the given
fields. -/
def withSpec (specKvs : List (String × Json)) : Json :=
  Json.obj [("cars", Json.obj [("base", Json.obj
    [("category", Json.obj []), ("advertisement", Json.obj []),
     ("spec", Json.obj specKvs), ("manage", Json.obj []),
     ("condition", Json.obj [])])])]

/-- A minimal validating state whose `advertisement` sub-object holds the
given fields. -/
def withAdv (advKvs : List (String × Json)) : Json :=
  Json.obj [("cars", Json.obj [("base", Json.obj
    [("category", Json.obj []), ("advertisement", Json.obj advKvs),
     ("spec", Json.obj []), ("manage", Json.obj []),
     ("condition", Json.obj [])])])]

/-- A state that validates although `condition.accident` is explicitly
`null`. -/
def nullAccidentState : Json :=
  Json.obj [("cars", Json.obj [("base", Json.obj
    [("category", Json.obj []), ("advertisement", Json.obj []),
     ("spec", Json.obj []), ("manage", Json.obj []),
     ("condition", Json.obj [("accident", Json.null)])])])]

/-! ### Claims -/

/-- C1, counterexample.  The claim states that displacement 1998 formats to
`"2.0L"`; the code formats `f"\x7b1.998:.1f\x7d" = "2.0"`, strips the
trailing zero and then the trailing dot, and returns `"2L"` — both from
`format_engine` directly and in the `specifications.engine` field of the
built output. -/
theorem claim_C1_counterexample :
    format_engine (Json.int 1998) = Except.ok (Json.str "2L") ∧
    (build_output id "40849700" (withSpec [("displacement", Json.int 1998)])).map
        (fun out => jat out ["specifications", "engine"]) =
      Except.ok (some (Json.str "2L")) ∧
    Json.str "2L" ≠ Json.str "2.0L" := by
  refine ⟨rfl, rfl, ?_⟩
  intro h
  injection h with h2
  exact absurd h2 (by decide)

/-- C1, amended.  Engine-size normalization: for displacement 1998 the
formatted engine field is `"2L"` (divide by 1000, format to one decimal
place, strip the trailing zero and dot, append `"L"`); for displacement 0 or
an absent displacement the engine field is omitted from the output rather
than emitted as `"0.0L"`. -/
theorem claim_C1_amended :
    (∀ translit vid, (build_output translit vid (withSpec [("displacement", Json.int 1998)])).map
        (fun out => jat out ["specifications", "engine"]) =
      Except.ok (some (Json.str "2L"))) ∧
    (∀ translit vid, (build_output translit vid (withSpec [("displacement", Json.int 0)])).map
        (fun out => jat out ["specifications"]) = Except.ok none) ∧
    (∀ translit vid, (build_output translit vid (withSpec [])).map
        (fun out => jat out ["specifications"]) = Except.ok none) ∧
    format_engine (Json.int 1998) = Except.ok (Json.str "2L") ∧
    format_engine (Json.int 0) = Except.ok Json.null ∧
    format_engine Json.null = Except.ok Json.null :=
  ⟨fun _ _ => rfl, fun _ _ => rfl, fun _ _ => rfl, rfl, rfl, rfl⟩

/-- C2.  The spec promises a pure normalizer with no failure path on
validated records, but a record whose `condition.accident` is an explicit
`null` passes validation (`Optional[Dict]` accepts `None`) and then crashes
`build_output`: `condition_base.get("accident", \x7b\x7d)` returns `None`
(the default only covers an absent key), and `.get("recordView")` on `None`
raises `AttributeError`. -/
theorem claim_C2_code_bug :
    validate_state nullAccidentState = Except.ok () ∧
    specRequiredShape nullAccidentState = true ∧
    build_output id "40849700" nullAccidentState =
      Except.error "AttributeError: NoneType object has no attribute get" ∧
    (∀ translit vid, (build_output translit vid nullAccidentState).isOk = false) :=
  ⟨rfl, rfl, rfl, fun _ _ => rfl⟩

/-- C6.  Price normalization multiplies every present integer price by
10,000 and omits the `price` field when the source price is absent; input
1500 yields 15,000,000. -/
theorem claim_C6_price :
    (∀ p : Int, normalize_price (Json.int p) = Except.ok (Json.int (p * 10000))) ∧
    normalize_price Json.null = Except.ok Json.null ∧
    (∀ translit vid (p : Int), (build_output translit vid (withAdv [("price", Json.int p)])).map
        (fun out => jat out ["price"]) = Except.ok (some (Json.int (p * 10000)))) ∧
    (∀ translit vid, (build_output translit vid (withAdv [])).map
        (fun out => jat out ["price"]) = Except.ok none) ∧
    normalize_price (Json.int 1500) = Except.ok (Json.int 15000000) :=
  ⟨fun _ => rfl, rfl, fun _ _ _ => rfl, fun _ _ => rfl, rfl⟩

/-- C10.  A missing or non-numeric concurrency hint defaults to 3, supplied
integers are clamped to `[1, 10]`, and the effective worker count is the
minimum of the clamped concurrency and the number of identifiers — never
more than any of the clamped concurrency, the batch size and 10, and never
less than 1 for a non-empty batch. -/
theorem claim_C10_concurrency :
    (∀ kvs, jlookup kvs "maxConcurrency" = none → _parse_max_concurrency kvs = 3) ∧
    (∀ kvs, jlookup kvs "maxConcurrency" = some Json.null → _parse_max_concurrency kvs = 3) ∧
    (∀ kvs v, jlookup kvs "maxConcurrency" = some v → pyIntOf v = none →
      _parse_max_concurrency kvs = 3) ∧
    (∀ kvs (n : Int), jlookup kvs "maxConcurrency" = some (Json.int n) →
      _parse_max_concurrency kvs = max 1 (min n 10)) ∧
    (∀ kvs, 1 ≤ _parse_max_concurrency kvs ∧ _parse_max_concurrency kvs ≤ 10) ∧
    (∀ kvs ids, effectiveWorkerCount kvs ids ≤ _parse_max_concurrency kvs ∧
      effectiveWorkerCount kvs ids ≤ (ids.length : Int) ∧
      effectiveWorkerCount kvs ids ≤ 10 ∧
      (ids ≠ [] → 1 ≤ effectiveWorkerCount kvs ids)) := by
  have hbounds : ∀ kvs, 1 ≤ _parse_max_concurrency kvs ∧ _parse_max_concurrency kvs ≤ 10 := by
    intro kvs
    unfold _parse_max_concurrency
    constructor
    · exact le_max_left _ _
    · exact max_le (by norm_num) (min_le_right _ _)
  refine ⟨?_, ?_, ?_, ?_, hbounds, ?_⟩
  · intro kvs h
    unfold _parse_max_concurrency _concurrency_value
    rw [h]
    decide
  · intro kvs h
    unfold _parse_max_concurrency _concurrency_value
    rw [h]
    decide
  · intro kvs v h hpy
    unfold _parse_max_concurrency _concurrency_value
    rw [h]
    cases v <;> simp_all [pyIntOf]
  · intro kvs n h
    unfold _parse_max_concurrency _concurrency_value
    rw [h]
    simp [pyIntOf]
  · intro kvs ids
    refine ⟨min_le_left _ _, min_le_right _ _, le_trans (min_le_left _ _) (hbounds kvs).2, ?_⟩
    intro hne
    have hlen : 0 < ids.length := List.length_pos.mpr hne
    have h1 : (1 : Int) ≤ (ids.length : Int) := by exact_mod_cast hlen
    exact le_min (hbounds kvs).1 h1

/-- C10, witness: a supplied hint of 99 is found by the lookup and clamped
to 10. -/
theorem claim_C10_concurrency_witness :
    jlookup [("maxConcurrency", Json.int 99)] "maxConcurrency" = some (Json.int 99) ∧
    _parse_max_concurrency [("maxConcurrency", Json.int 99)] = max 1 (min 99 10) :=
  ⟨rfl, claim_C10_concurrency.2.2.2.1 [("maxConcurrency", Json.int 99)] 99 rfl⟩

/-! ### Sample markup for the round-trip scenario -/

/-- Comma-join rendered fragments. -/
def joinComma : List (List Char) → List Char
  | [] => []
  | [x] => x
  | x :: rest => x ++ ',' :: ' ' :: joinComma rest

/-- Render a `Json` value as JSON text (string escaping is not needed by the
sample payloads, which avoid special characters). -/
def renderF : Nat → Json → List Char
  | 0, _ => []
  | _ + 1, Json.null => "null".toList
  | _ + 1, Json.bool b => if b then "true".toList else "false".toList
  | _ + 1, Json.int n => (toString n).toList
  | _ + 1, Json.str s => '"' :: s.data ++ ['"']
  | f + 1, Json.arr xs => '\x7b' :: joinComma (xs.map fun x => renderF f x) ++ ['\x7d']
  | f + 1, Json.obj kvs =>
    '\x7b' ::
      joinComma (kvs.map fun kv => '"' :: kv.1.data ++ ['"', ':', ' '] ++ renderF f kv.2) ++
      ['\x7d']

/-- Render with ample depth fuel. -/
def render (j : Json) : List Char := renderF 32 j

/-- The embedded state of the round-trip scenario: price 1500, mileage
85,000, fuel code `"001"`. -/
def sampleState : Json :=
  Json.obj [("cars", Json.obj [("base", Json.obj
    [("category", Json.obj []),
     ("advertisement", Json.obj [("price", Json.int 1500)]),
     ("spec", Json.obj [("mileage", Json.int 85000), ("fuelCd", Json.str "001")]),
     ("manage", Json.obj []), ("condition", Json.obj [])])])]

/-- A fixed sample page embedding `sampleState`. -/
def sampleHtml : List Char :=
  "<html><head></head><body><script>window.__PRELOADED_STATE__ = ".toList ++
    render sampleState ++ ";</script><div>x</div></body></html>".toList

/-- Reduction of `Except` bind on a success, used to unfold the monadic
embedding in proofs. -/
theorem exceptBindOk {α β : Type} (a : α) (f : α → Except String β) :
    (Except.ok a >>= f : Except String β) = f a := rfl

/-- Reduction of `Except` bind on a failure. -/
theorem exceptBindErr {α β : Type} (e : String) (f : α → Except String β) :
    (Except.error e >>= f : Except String β) = Except.error e := rfl

/-- C7.  Fuel classification prefers the fixed numeric-code table over the
free-text name (for any `spec` object and any accompanying `fuelName`),
falls back to free-text translation when the code is missing or
unrecognised, passes unrecognised free-text labels through unchanged, and
end to end the sample markup with price 1500, mileage 85000, fuelCd `"001"`
normalizes to price 15000000, mileage 85000, fuel `"Gasoline"`. -/
theorem claim_C7_fuel :
    (∀ kvs c label, jlookup kvs "fuelCd" = some (Json.str c) →
      fuelCodeMap.lookup c = some label →
      classify_fuel (Json.obj kvs) = Except.ok (Json.str label)) ∧
    (∀ kvs, jlookup kvs "fuelCd" = none →
      classify_fuel (Json.obj kvs) =
        translate_fuel ((jlookup kvs "fuelName").getD Json.null)) ∧
    (∀ kvs c, jlookup kvs "fuelCd" = some (Json.str c) →
      fuelCodeMap.lookup c = none →
      classify_fuel (Json.obj kvs) =
        translate_fuel ((jlookup kvs "fuelName").getD Json.null)) ∧
    (∀ s : String, s ≠ "" → fuelNameMap.lookup (pystripS s) = none →
      translate_fuel (Json.str s) = Except.ok (Json.str (pystripS s))) ∧
    classify_fuel (Json.obj [("fuelCd", Json.str "001")]) = Except.ok (Json.str "Gasoline") ∧
    classify_fuel (Json.obj [("fuelCd", Json.str "002")]) = Except.ok (Json.str "Diesel") ∧
    classify_fuel (Json.obj [("fuelCd", Json.str "003")]) = Except.ok (Json.str "LPG") ∧
    classify_fuel (Json.obj [("fuelCd", Json.str "004")]) = Except.ok (Json.str "Electric") ∧
    classify_fuel (Json.obj [("fuelCd", Json.str "005")]) = Except.ok (Json.str "Hybrid") ∧
    classify_fuel (Json.obj [("fuelCd", Json.str "006")]) = Except.ok (Json.str "Hydrogen") ∧
    (parse_vehicle id "40849700" sampleHtml).map
        (fun j => (jat j ["data", "price"], jat j ["data", "mileage"], jat j ["data", "fuel"])) =
      Except.ok (some (Json.int 15000000), some (Json.int 85000), some (Json.str "Gasoline")) := by
  refine ⟨?_, ?_, ?_, ?_, rfl, rfl, rfl, rfl, rfl, rfl, rfl⟩
  · intro kvs c label h hl
    simp [classify_fuel, pyGet, h, hl, exceptBindOk, pure, Except.pure]
  · intro kvs h
    simp [classify_fuel, pyGet, h, exceptBindOk]
  · intro kvs c h hl
    simp [classify_fuel, pyGet, h, hl, exceptBindOk]
  · intro s hs hl
    have ht : pyTruthy (Json.str s) = true := by
      simp [pyTruthy, hs]
    simp [translate_fuel, ht, hl]

/-- C7, witness: the hypotheses of the pass-through conjunct are satisfied
by the unrecognised label `"Petrol"`. -/
theorem claim_C7_fuel_witness :
    ("Petrol" ≠ "" ∧ fuelNameMap.lookup (pystripS "Petrol") = none) ∧
    translate_fuel (Json.str "Petrol") = Except.ok (Json.str (pystripS "Petrol")) :=
  ⟨⟨by decide, rfl⟩, claim_C7_fuel.2.2.2.1 "Petrol" (by decide) rfl⟩

/-! ### Validator claim -/

/-- Did the computation succeed? -/
def exceptOk {ε α : Type} : Except ε α → Bool
  | Except.ok _ => true
  | Except.error _ => false

/-- A plainly typed leaf value validates. -/
theorem plainLeafOk_leafOk {ty : LeafTy} {v : Json} (h : plainLeafOk ty v = true) :
    leafOk ty v = true := by
  cases ty <;> cases v <;> simp_all [plainLeafOk, leafOk]

/-- Plainly typed present leaves contribute no validation errors. -/
theorem leafErrs_eq_nil {parent : String} {fields : List (String × LeafTy)}
    {kvs : List (String × Json)}
    (h : ∀ ft ∈ fields, ∀ v, jlookup kvs ft.1 = some v → plainLeafOk ft.2 v = true) :
    leafErrs parent fields kvs = [] := by
  induction fields with
  | nil => rfl
  | cons ft rest ih =>
    have hft := h ft (List.mem_cons_self _ _)
    have hrest : ∀ x ∈ rest, ∀ v, jlookup kvs x.1 = some v → plainLeafOk x.2 v = true :=
      fun x hx => h x (List.mem_cons_of_mem _ hx)
    rw [leafErrs, List.filterMap_cons]
    cases hl : jlookup kvs ft.1 with
    | none => simpa [leafErrs] using ih hrest
    | some v =>
      have hok := plainLeafOk_leafOk (hft v hl)
      simpa [leafErrs, hok] using ih hrest

/-- Unpack the `subPlain` hypothesis on an object value. -/
theorem subPlain_fields {fields : List (String × LeafTy)} {kvs : List (String × Json)}
    (h : subPlain fields (some (Json.obj kvs)) = true) :
    ∀ ft ∈ fields, ∀ v, jlookup kvs ft.1 = some v → plainLeafOk ft.2 v = true := by
  intro ft hft v hv
  obtain ⟨a, ty⟩ := ft
  simp only [subPlain, List.all_eq_true, Prod.forall] at h
  have hall := h a ty hft
  rw [hv] at hall
  simpa using hall

/-- A required sub-model present as a plainly typed object contributes no
errors. -/
theorem subModelErrs_nil_obj {name mn : String} {fields : List (String × LeafTy)}
    {mv : Option Json} (hobj : isObjOpt mv = true) (hp : subPlain fields mv = true) :
    subModelErrs name mn fields mv = [] := by
  cases mv with
  | none => simp [isObjOpt] at hobj
  | some v =>
    cases v <;> simp [isObjOpt] at hobj
    simpa [subModelErrs] using leafErrs_eq_nil (subPlain_fields hp)

/-- Under plain typing, a required sub-model validates exactly when it is
present as an object. -/
theorem subModelErrs_nil_iff {name mn : String} {fields : List (String × LeafTy)}
    {mv : Option Json} (hp : subPlain fields mv = true) :
    (subModelErrs name mn fields mv = [] ↔ isObjOpt mv = true) := by
  cases mv with
  | none => simp [subModelErrs, isObjOpt]
  | some v =>
    cases v <;> simp [subModelErrs, isObjOpt]
    exact leafErrs_eq_nil (subPlain_fields hp)

/-- A plainly typed optional base leaf contributes no errors. -/
theorem optLeafErrs_nil {name : String} {ty : LeafTy} {mv : Option Json}
    (hp : optPlain ty mv = true) : optLeafErrs name ty mv = [] := by
  cases mv with
  | none => rfl
  | some v => simp [optLeafErrs, plainLeafOk_leafOk (by simpa [optPlain] using hp)]

/-- A plainly typed optional sub-model contributes no errors. -/
theorem optModelErrs_nil {name mn : String} {fields : List (String × LeafTy)}
    {mv : Option Json} (hp : optSubPlain fields mv = true) :
    optModelErrs name mn fields mv = [] := by
  cases mv with
  | none => rfl
  | some v =>
    cases v <;> simp [optSubPlain] at hp <;> simp [optModelErrs]
    exact leafErrs_eq_nil (subPlain_fields (by simpa [subPlain] using hp))

/-- Under plain typing, `BaseCarModel` validation succeeds exactly when the
five required sub-objects are present as objects. -/
theorem baseErrors_nil_iff {bkvs : List (String × Json)} (hp : plainBase bkvs = true) :
    (baseErrors bkvs = [] ↔ reqKeys.all (fun k => isObjOpt (jlookup bkvs k)) = true) := by
  rw [plainBase] at hp
  simp only [Bool.and_eq_true] at hp
  obtain ⟨⟨⟨⟨⟨⟨⟨h1, h2⟩, h3⟩, h4⟩, h5⟩, h6⟩, h7⟩, h8⟩ := hp
  rw [baseErrors, optLeafErrs_nil h1, optLeafErrs_nil h2, optModelErrs_nil h8]
  simp [List.append_eq_nil, subModelErrs_nil_iff h3, subModelErrs_nil_iff h4,
    subModelErrs_nil_iff h5, subModelErrs_nil_iff h6, subModelErrs_nil_iff h7,
    reqKeys]

/-- A state wrapping the given base object. -/
def mkState (bkvs : List (String × Json)) : Json :=
  Json.obj [("cars", Json.obj [("base", Json.obj bkvs)])]

/-- When exactly one required sub-object is missing and the rest are present
as plainly typed objects, the validation errors are that single `Field
required` entry. -/
theorem baseErrors_single_missing {bkvs : List (String × Json)} {f : String}
    (hf : f ∈ reqKeys) (hp : plainBase bkvs = true) (hmiss : jlookup bkvs f = none)
    (hothers : ∀ k ∈ reqKeys, k ≠ f → isObjOpt (jlookup bkvs k) = true) :
    baseErrors bkvs = ["Field required @ " ++ f] := by
  rw [plainBase] at hp
  simp only [Bool.and_eq_true] at hp
  obtain ⟨⟨⟨⟨⟨⟨⟨h1, h2⟩, h3⟩, h4⟩, h5⟩, h6⟩, h7⟩, h8⟩ := hp
  rw [baseErrors, optLeafErrs_nil h1, optLeafErrs_nil h2, optModelErrs_nil h8]
  simp only [reqKeys, List.mem_cons, List.not_mem_nil, or_false] at hf
  have hother : ∀ k, k ∈ reqKeys → k ≠ f → isObjOpt (jlookup bkvs k) = true := hothers
  rcases hf with rfl | rfl | rfl | rfl | rfl
  · rw [subModelErrs_nil_obj (hother "advertisement" (by simp [reqKeys]) (by decide)) h4,
      subModelErrs_nil_obj (hother "spec" (by simp [reqKeys]) (by decide)) h5,
      subModelErrs_nil_obj (hother "manage" (by simp [reqKeys]) (by decide)) h6,
      subModelErrs_nil_obj (hother "condition" (by simp [reqKeys]) (by decide)) h7]
    simp [subModelErrs, hmiss]
  · rw [subModelErrs_nil_obj (hother "category" (by simp [reqKeys]) (by decide)) h3,
      subModelErrs_nil_obj (hother "spec" (by simp [reqKeys]) (by decide)) h5,
      subModelErrs_nil_obj (hother "manage" (by simp [reqKeys]) (by decide)) h6,
      subModelErrs_nil_obj (hother "condition" (by simp [reqKeys]) (by decide)) h7]
    simp [subModelErrs, hmiss]
  · rw [subModelErrs_nil_obj (hother "category" (by simp [reqKeys]) (by decide)) h3,
      subModelErrs_nil_obj (hother "advertisement" (by simp [reqKeys]) (by decide)) h4,
      subModelErrs_nil_obj (hother "manage" (by simp [reqKeys]) (by decide)) h6,
      subModelErrs_nil_obj (hother "condition" (by simp [reqKeys]) (by decide)) h7]
    simp [subModelErrs, hmiss]
  · rw [subModelErrs_nil_obj (hother "category" (by simp [reqKeys]) (by decide)) h3,
      subModelErrs_nil_obj (hother "advertisement" (by simp [reqKeys]) (by decide)) h4,
      subModelErrs_nil_obj (hother "spec" (by simp [reqKeys]) (by decide)) h5,
      subModelErrs_nil_obj (hother "condition" (by simp [reqKeys]) (by decide)) h7]
    simp [subModelErrs, hmiss]
  · rw [subModelErrs_nil_obj (hother "category" (by simp [reqKeys]) (by decide)) h3,
      subModelErrs_nil_obj (hother "advertisement" (by simp [reqKeys]) (by decide)) h4,
      subModelErrs_nil_obj (hother "spec" (by simp [reqKeys]) (by decide)) h5,
      subModelErrs_nil_obj (hother "manage" (by simp [reqKeys]) (by decide)) h6]
    simp [subModelErrs, hmiss]

/-- C5.  On states whose present leaves are plainly typed, `validate_state`
succeeds exactly when the container holds a nested `base` object with
`category`, `advertisement`, `spec`, `manage` and `condition` present as
objects (leaf fields may all be absent and unknown fields never cause
rejection, since `specRequiredShape` constrains nothing else); a missing
container or `base` is reported with the message naming that path, and a
single missing required sub-object is reported as `Field required` at its
name. -/
theorem claim_C5_validator :
    (∀ state, plainLeaves state = true →
      (exceptOk (validate_state state) = true ↔ specRequiredShape state = true)) ∧
    (∀ skvs, isObjOpt (jlookup skvs "cars") = false →
      validate_state (Json.obj skvs) = Except.error "State missing `cars` object.") ∧
    (∀ skvs ckvs, jlookup skvs "cars" = some (Json.obj ckvs) →
      isObjOpt (jlookup ckvs "base") = false →
      validate_state (Json.obj skvs) = Except.error "State missing `cars.base` object.") ∧
    (∀ bkvs f, f ∈ reqKeys → plainBase bkvs = true → jlookup bkvs f = none →
      (∀ k ∈ reqKeys, k ≠ f → isObjOpt (jlookup bkvs k) = true) →
      validate_state (mkState bkvs) =
        Except.error ("cars.base validation failed: " ++ ("Field required @ " ++ f))) := by
  refine ⟨?_, ?_, ?_, ?_⟩
  · intro state hp
    cases state with
    | obj skvs =>
      cases hcars : jlookup skvs "cars" with
      | none => simp [validate_state, specRequiredShape, exceptOk, hcars]
      | some cv =>
        cases cv with
        | obj ckvs =>
          cases hbase : jlookup ckvs "base" with
          | none => simp [validate_state, specRequiredShape, exceptOk, hcars, hbase]
          | some bv =>
            cases bv with
            | obj bkvs =>
              have hpb : plainBase bkvs = true := by
                simpa [plainLeaves, hcars, hbase] using hp
              have hiff := baseErrors_nil_iff hpb
              cases herr : baseErrors bkvs with
              | nil =>
                simp [validate_state, specRequiredShape, exceptOk, hcars, hbase, herr]
                exact List.all_eq_true.mp (hiff.mp herr)
              | cons e es =>
                simp [validate_state, specRequiredShape, exceptOk, hcars, hbase, herr]
                have hnall : ¬(reqKeys.all fun k => isObjOpt (jlookup bkvs k)) = true := by
                  intro hall
                  have h2 := hiff.mpr hall
                  rw [herr] at h2
                  cases h2
                simp only [List.all_eq_true] at hnall
                push_neg at hnall
                simpa [Bool.not_eq_true] using hnall
            | null => simp [validate_state, specRequiredShape, exceptOk, hcars, hbase]
            | bool b => simp [validate_state, specRequiredShape, exceptOk, hcars, hbase]
            | int n => simp [validate_state, specRequiredShape, exceptOk, hcars, hbase]
            | str s => simp [validate_state, specRequiredShape, exceptOk, hcars, hbase]
            | arr xs => simp [validate_state, specRequiredShape, exceptOk, hcars, hbase]
        | null => simp [validate_state, specRequiredShape, exceptOk, hcars]
        | bool b => simp [validate_state, specRequiredShape, exceptOk, hcars]
        | int n => simp [validate_state, specRequiredShape, exceptOk, hcars]
        | str s => simp [validate_state, specRequiredShape, exceptOk, hcars]
        | arr xs => simp [validate_state, specRequiredShape, exceptOk, hcars]
    | null => simp [validate_state, specRequiredShape, exceptOk]
    | bool b => simp [validate_state, specRequiredShape, exceptOk]
    | int n => simp [validate_state, specRequiredShape, exceptOk]
    | str s => simp [validate_state, specRequiredShape, exceptOk]
    | arr xs => simp [validate_state, specRequiredShape, exceptOk]
  · intro skvs h
    cases hcars : jlookup skvs "cars" with
    | none => simp [validate_state, hcars]
    | some cv =>
      rw [hcars] at h
      cases cv <;> simp [isObjOpt] at h <;> simp [validate_state, hcars]
  · intro skvs ckvs hcars h
    cases hbase : jlookup ckvs "base" with
    | none => simp [validate_state, hcars, hbase]
    | some bv =>
      rw [hbase] at h
      cases bv <;> simp [isObjOpt] at h <;> simp [validate_state, hcars, hbase]
  · intro bkvs f hf hp hmiss hothers
    have hred : validate_state (mkState bkvs) =
        (match baseErrors bkvs with
         | [] => Except.ok ()
         | errs =>
           Except.error ("cars.base validation failed: " ++ sjoin "; " (errs.take 3))) := rfl
    rw [hred, baseErrors_single_missing hf hp hmiss hothers]
    rfl

/-- C5, witness: the state with an explicit `null` accident leaf is plainly
typed, and the equivalence instantiates to it (both sides hold: it validates
and has the required shape). -/
theorem claim_C5_validator_witness :
    plainLeaves nullAccidentState = true ∧
    (exceptOk (validate_state nullAccidentState) = true ↔
      specRequiredShape nullAccidentState = true) :=
  ⟨rfl, claim_C5_validator.1 nullAccidentState rfl⟩

/-! ### Dispatcher lemmas -/

/-- The success pair of task `i` carries index `i`. -/
theorem successAt_fst {ids : List String} {parse : String → Except String Json}
    {i : Nat} {p : Nat × Json} (h : successAt ids parse i = some p) : p.1 = i := by
  unfold successAt at h
  split at h
  · split at h
    · cases h
      rfl
    · cases h
  · cases h

/-- Whether task `i` succeeds, as a function of the identifier list entry. -/
theorem successAt_isSome (ids : List String) (parse : String → Except String Json)
    (i : Nat) :
    (successAt ids parse i).isSome =
      (match ids[i]? with
       | some vid => exceptOk (parse vid)
       | none => false) := by
  unfold successAt
  cases ids[i]? with
  | none => rfl
  | some vid => cases hp : parse vid <;> simp [hp, exceptOk]

/-- Whether task `i` fails, as a function of the identifier list entry. -/
theorem failureAt_isSome (ids : List String) (parse : String → Except String Json)
    (i : Nat) :
    (failureAt ids parse i).isSome =
      (match ids[i]? with
       | some vid => !exceptOk (parse vid)
       | none => false) := by
  unfold failureAt
  cases ids[i]? with
  | none => rfl
  | some vid => cases hp : parse vid <;> simp [hp, exceptOk]

/-- Counting a predicate of the entries over the index range is counting it
over the list. -/
theorem countP_range_getElem {α : Type} (l : List α) (g : Option α → Bool) :
    (List.range l.length).countP (fun i => g l[i]?) = l.countP (fun a => g (some a)) := by
  induction l with
  | nil => simp
  | cons a t ih =>
    rw [List.length_cons, List.range_succ_eq_map, List.countP_cons, List.countP_map,
      List.countP_cons]
    have hcomp : ((List.range t.length).countP ((fun i => g (a :: t)[i]?) ∘ Nat.succ)) =
        (List.range t.length).countP (fun i => g t[i]?) := by
      apply List.countP_congr
      intro x _
      simp [Function.comp, List.getElem?_cons_succ]
    rw [hcomp, ih]
    simp [List.countP_nil]

/-- Bookkeeping of the shared success counter and failures list: after all
completions, the counter counts the successful tasks and the failures list
holds the failure entries in completion order, for every storage cap. -/
theorem gather_succ_fail (ids : List String) (parse : String → Except String Json)
    (sl : Option Nat) :
    ∀ (sched : List Nat) (acc : List (Nat × Json) × Nat × List (String × String)),
      ((sched.foldl (runStep ids parse sl) acc).2.1 =
        acc.2.1 + sched.countP (fun i => (successAt ids parse i).isSome)) ∧
      ((sched.foldl (runStep ids parse sl) acc).2.2 =
        acc.2.2 ++ sched.filterMap (failureAt ids parse)) := by
  intro sched
  induction sched with
  | nil => intro acc; simp
  | cons i rest ih =>
    intro acc
    obtain ⟨r, s, f⟩ := acc
    rw [List.foldl_cons, List.countP_cons, List.filterMap_cons]
    cases hid : ids[i]? with
    | none =>
      have h1 := ih (runStep ids parse sl (r, s, f) i)
      simp only [runStep, hid] at h1 ⊢
      constructor
      · rw [h1.1]
        simp [successAt, hid]
      · rw [h1.2]
        simp [failureAt, hid]
    | some vid =>
      cases hp : parse vid with
      | ok out =>
        have h1 := ih (runStep ids parse sl (r, s, f) i)
        simp only [runStep, hid, hp] at h1 ⊢
        constructor
        · rw [h1.1]
          simp [successAt, hid, hp]
          omega
        · rw [h1.2]
          simp [failureAt, hid, hp]
      | error e =>
        have h1 := ih (runStep ids parse sl (r, s, f) i)
        simp only [runStep, hid, hp] at h1 ⊢
        constructor
        · rw [h1.1]
          simp [successAt, hid, hp]
        · rw [h1.2]
          simp [failureAt, hid, hp]

/-- With no storage cap, the results collection gathers exactly the
successes, tagged with their indices, in completion order. -/
theorem gather_results_none (ids : List String) (parse : String → Except String Json) :
    ∀ (sched : List Nat) (acc : List (Nat × Json) × Nat × List (String × String)),
      (sched.foldl (runStep ids parse none) acc).1 =
        acc.1 ++ sched.filterMap (successAt ids parse) := by
  intro sched
  induction sched with
  | nil => intro acc; simp
  | cons i rest ih =>
    intro acc
    obtain ⟨r, s, f⟩ := acc
    rw [List.foldl_cons, List.filterMap_cons]
    cases hid : ids[i]? with
    | none =>
      rw [show runStep ids parse none (r, s, f) i = (r, s, f) by simp [runStep, hid]]
      rw [ih (r, s, f)]
      simp [successAt, hid]
    | some vid =>
      cases hp : parse vid with
      | ok out =>
        rw [show runStep ids parse none (r, s, f) i = (r ++ [(i, out)], s + 1, f) by
          simp [runStep, hid, hp, storeAllowed]]
        rw [ih _]
        simp [successAt, hid, hp]
      | error e =>
        rw [show runStep ids parse none (r, s, f) i = (r, s, f ++ [(vid, e)]) by
          simp [runStep, hid, hp]]
        rw [ih _]
        simp [successAt, hid, hp]

/-- Under any storage cap, the results collection is a sublist of the
completion-order successes. -/
theorem gather_results_sublist (ids : List String) (parse : String → Except String Json)
    (sl : Option Nat) :
    ∀ (sched : List Nat) (acc : List (Nat × Json) × Nat × List (String × String)),
      ∃ t, (sched.foldl (runStep ids parse sl) acc).1 = acc.1 ++ t ∧
        t.Sublist (sched.filterMap (successAt ids parse)) := by
  intro sched
  induction sched with
  | nil => intro acc; exact ⟨[], by simp, by simp⟩
  | cons i rest ih =>
    intro acc
    obtain ⟨r, s, f⟩ := acc
    rw [List.foldl_cons, List.filterMap_cons]
    cases hid : ids[i]? with
    | none =>
      obtain ⟨t, h1, h2⟩ := ih (runStep ids parse sl (r, s, f) i)
      refine ⟨t, ?_, ?_⟩
      · rw [h1]; simp [runStep, hid]
      · simpa [successAt, hid] using h2
    | some vid =>
      cases hp : parse vid with
      | ok out =>
        by_cases hst : storeAllowed sl r.length
        · obtain ⟨t, h1, h2⟩ := ih (r ++ [(i, out)], s + 1, f)
          refine ⟨(i, out) :: t, ?_, ?_⟩
          · rw [show runStep ids parse sl (r, s, f) i = (r ++ [(i, out)], s + 1, f) by
              simp [runStep, hid, hp, hst]]
            rw [h1]
            simp
          · simpa [successAt, hid, hp] using List.Sublist.cons₂ (i, out) h2
        · obtain ⟨t, h1, h2⟩ := ih (r, s + 1, f)
          refine ⟨t, ?_, ?_⟩
          · rw [show runStep ids parse sl (r, s, f) i = (r, s + 1, f) by
              simp [runStep, hid, hp, hst]]
            exact h1
          · simpa [successAt, hid, hp] using List.Sublist.cons (i, out) h2
      | error e =>
        obtain ⟨t, h1, h2⟩ := ih (r, s, f ++ [(vid, e)])
        refine ⟨t, ?_, ?_⟩
        · rw [show runStep ids parse sl (r, s, f) i = (r, s, f ++ [(vid, e)]) by
            simp [runStep, hid, hp]]
          exact h1
        · simpa [successAt, hid, hp] using h2

/-- The canonical success list is strictly ordered by original index. -/
theorem successPairs_pairwise (ids : List String) (parse : String → Except String Json) :
    List.Pairwise (fun a b => a.1 < b.1) (successPairs ids parse) := by
  unfold successPairs
  rw [List.pairwise_filterMap]
  refine (List.pairwise_lt_range _).imp ?_
  intro i j hij b hb b' hb'
  rw [successAt_fst (Option.mem_def.mp hb), successAt_fst (Option.mem_def.mp hb')]
  exact hij

/-- The index projection of gathered successes is a sublist of the schedule
processed. -/
theorem map_fst_filterMap_sublist (ids : List String) (parse : String → Except String Json)
    (l : List Nat) :
    ((l.filterMap (successAt ids parse)).map Prod.fst).Sublist l := by
  induction l with
  | nil => simp
  | cons i rest ih =>
    rw [List.filterMap_cons]
    cases h : successAt ids parse i with
    | none => exact ih.cons i
    | some p =>
      rw [List.map_cons, successAt_fst h]
      exact ih.cons₂ i

/-- Sorting index-tagged pairs with distinct indices yields a strictly
index-increasing list. -/
theorem sortByIdx_pairwise_lt (l : List (Nat × Json)) (hnd : (l.map Prod.fst).Nodup) :
    List.Pairwise (fun a b => a.1 < b.1) (sortByIdx l) := by
  haveI : IsTotal (Nat × Json) (fun a b => a.1 ≤ b.1) := ⟨fun a b => Nat.le_total _ _⟩
  haveI : IsTrans (Nat × Json) (fun a b => a.1 ≤ b.1) := ⟨fun _ _ _ => Nat.le_trans⟩
  have hle : List.Sorted (fun a b : Nat × Json => a.1 ≤ b.1) (sortByIdx l) :=
    List.sorted_insertionSort _ _
  have hperm : (sortByIdx l).Perm l := List.perm_insertionSort _ _
  have hnd2 : ((sortByIdx l).map Prod.fst).Nodup := ((hperm.map Prod.fst).symm).nodup hnd
  have hne : List.Pairwise (fun a b : Nat × Json => a.1 ≠ b.1) (sortByIdx l) :=
    List.pairwise_map.mp hnd2
  exact (hle.and hne).imp fun h => lt_of_le_of_ne h.1 h.2

/-- Unpack a success entry: it records the parse result of the identifier at
its index. -/
theorem successAt_spec {ids : List String} {parse : String → Except String Json}
    {i : Nat} {p : Nat × Json} (h : successAt ids parse i = some p) :
    ∃ vid, ids[i]? = some vid ∧ parse vid = Except.ok p.2 := by
  unfold successAt at h
  split at h
  next vid hid =>
    split at h
    next out hp =>
      cases h
      exact ⟨vid, hid, hp⟩
    next e hp => cases h
  next hid => cases h

/-- C8.  With no storage cap, the retained successes of a batch are exactly
the successes in original input order, for every completion schedule; and
under any storage cap the retained, re-sorted successes are strictly ordered
by original index and each records the parse result of the identifier at its
index — callers never observe completion-order artifacts in the ordering. -/
theorem claim_C8_ordering :
    (∀ ids parse sched, sched.Perm (List.range ids.length) →
      (_process_vehicle_ids ids parse none sched).items = successesInOrder ids parse) ∧
    (∀ ids parse sl sched, sched.Perm (List.range ids.length) →
      List.Pairwise (fun a b => a.1 < b.1)
        (sortByIdx (gatherResults ids parse sl sched).1) ∧
      (∀ p ∈ sortByIdx (gatherResults ids parse sl sched).1,
        ∃ vid, ids[p.1]? = some vid ∧ parse vid = Except.ok p.2)) := by
  constructor
  · intro ids parse sched hs
    have hres : (gatherResults ids parse none sched).1 =
        sched.filterMap (successAt ids parse) := by
      simpa [gatherResults] using gather_results_none ids parse sched ([], 0, [])
    have hperm : (gatherResults ids parse none sched).1.Perm (successPairs ids parse) := by
      rw [hres]
      exact List.Perm.filterMap _ hs
    have hndsp : ((successPairs ids parse).map Prod.fst).Nodup := by
      have hplt : List.Pairwise (fun a b : Nat => a < b)
          ((successPairs ids parse).map Prod.fst) :=
        List.pairwise_map.mpr (successPairs_pairwise ids parse)
      exact hplt.imp Nat.ne_of_lt
    have hnd : ((gatherResults ids parse none sched).1.map Prod.fst).Nodup :=
      ((hperm.map Prod.fst).symm).nodup hndsp
    have hsorted := sortByIdx_pairwise_lt _ hnd
    have hperm2 : (sortByIdx (gatherResults ids parse none sched).1).Perm
        (successPairs ids parse) :=
      (List.perm_insertionSort _ _).trans hperm
    haveI : IsAntisymm (Nat × Json) (fun a b => a.1 < b.1) :=
      ⟨fun _ _ h h' => absurd (Nat.lt_trans h h') (Nat.lt_irrefl _)⟩
    have heq : sortByIdx (gatherResults ids parse none sched).1 = successPairs ids parse :=
      List.eq_of_perm_of_sorted hperm2 hsorted (successPairs_pairwise ids parse)
    show (sortByIdx (gatherResults ids parse none sched).1).map Prod.snd = _
    rw [heq]
    rfl
  · intro ids parse sl sched hs
    obtain ⟨t, h1, h2⟩ := gather_results_sublist ids parse sl sched ([], 0, [])
    have hres : (gatherResults ids parse sl sched).1 = t := by
      simpa [gatherResults] using h1
    have hndsched : sched.Nodup := hs.symm.nodup (List.nodup_range _)
    have hndt : (t.map Prod.fst).Nodup :=
      ((h2.map Prod.fst).trans (map_fst_filterMap_sublist ids parse sched)).nodup hndsched
    rw [hres]
    refine ⟨sortByIdx_pairwise_lt t hndt, ?_⟩
    intro p hp
    have hpt : p ∈ t := (List.perm_insertionSort _ _).subset hp
    have hpf : p ∈ sched.filterMap (successAt ids parse) := h2.subset hpt
    obtain ⟨i, _, hsucc⟩ := List.mem_filterMap.mp hpf
    have hfst := successAt_fst hsucc
    obtain ⟨vid, hid, hok⟩ := successAt_spec hsucc
    exact ⟨vid, by rw [hfst]; exact hid, hok⟩

/-- C9.  For every batch and completion schedule, the dispatcher returns
without failing: the success count plus the failure count is the batch size,
the failures list has exactly one (identifier, message) entry per failing
item, so the success count is `n − k`, and the failures are exactly the
failure entries of the failing identifiers (in some completion order). -/
theorem claim_C9_isolation :
    ∀ ids parse (sl : Option Nat) sched, sched.Perm (List.range ids.length) →
      (_process_vehicle_ids ids parse sl sched).succeeded +
          (_process_vehicle_ids ids parse sl sched).failures.length = ids.length ∧
      (_process_vehicle_ids ids parse sl sched).failures.length =
        ids.countP (fun v => !exceptOk (parse v)) ∧
      (_process_vehicle_ids ids parse sl sched).succeeded =
        ids.length - ids.countP (fun v => !exceptOk (parse v)) ∧
      (_process_vehicle_ids ids parse sl sched).failures.Perm
        ((List.range ids.length).filterMap (failureAt ids parse)) := by
  intro ids parse sl sched hs
  obtain ⟨hsucc, hfail⟩ := gather_succ_fail ids parse sl sched ([], 0, [])
  have hS : (_process_vehicle_ids ids parse sl sched).succeeded =
      sched.countP (fun i => (successAt ids parse i).isSome) := by
    simpa [_process_vehicle_ids, gatherResults] using hsucc
  have hF : (_process_vehicle_ids ids parse sl sched).failures =
      sched.filterMap (failureAt ids parse) := by
    simpa [_process_vehicle_ids, gatherResults] using hfail
  have hSc : sched.countP (fun i => (successAt ids parse i).isSome) =
      ids.countP (fun v => exceptOk (parse v)) := by
    rw [List.Perm.countP_eq _ hs]
    have h1 : (List.range ids.length).countP (fun i => (successAt ids parse i).isSome) =
        (List.range ids.length).countP
          (fun i => (match ids[i]? with
            | some vid => exceptOk (parse vid)
            | none => false : Bool)) := by
      apply List.countP_congr
      intro x _
      rw [successAt_isSome]
    rw [h1]
    exact countP_range_getElem ids
      (fun o => match o with
        | some vid => exceptOk (parse vid)
        | none => false)
  have hFc : (sched.filterMap (failureAt ids parse)).length =
      ids.countP (fun v => !exceptOk (parse v)) := by
    rw [List.length_filterMap_eq_countP]
    rw [List.Perm.countP_eq _ hs]
    have h1 : (List.range ids.length).countP (fun i => (failureAt ids parse i).isSome) =
        (List.range ids.length).countP
          (fun i => (match ids[i]? with
            | some vid => !exceptOk (parse vid)
            | none => false : Bool)) := by
      apply List.countP_congr
      intro x _
      rw [failureAt_isSome]
    rw [h1]
    exact countP_range_getElem ids
      (fun o => match o with
        | some vid => !exceptOk (parse vid)
        | none => false)
  have htotal : ids.countP (fun v => exceptOk (parse v)) +
      ids.countP (fun v => !exceptOk (parse v)) = ids.length := by
    have h2 := List.length_eq_countP_add_countP (fun v => exceptOk (parse v)) ids
    have h3 : ids.countP (fun a => decide ¬(exceptOk (parse a) = true)) =
        ids.countP (fun v => !exceptOk (parse v)) := by
      apply List.countP_congr
      intro x _
      simp
    omega
  refine ⟨?_, ?_, ?_, ?_⟩
  · rw [hS, hSc, hF, hFc]
    omega
  · rw [hF, hFc]
  · rw [hS, hSc, hF] at *
    omega
  · rw [hF]
    exact List.Perm.filterMap _ hs

/-- Demonstration batch for the dispatcher claims: B fails, A and C
succeed. -/
def demoIds : List String := ["A", "B", "C"]

/-- Demonstration per-item pipeline. -/
def demoParse : String → Except String Json :=
  fun v => if v = "B" then Except.error "boom" else Except.ok (Json.str v)

/-- Demonstration completion schedule: B first, then C, then A. -/
def demoSched : List Nat := [1, 2, 0]

/-- C8, witness: on the demonstration batch, under the completion order
B, C, A, the retained successes come out in input order `[A, C]`. -/
theorem claim_C8_ordering_witness :
    demoSched.Perm (List.range demoIds.length) ∧
    (_process_vehicle_ids demoIds demoParse none demoSched).items =
      successesInOrder demoIds demoParse :=
  ⟨by decide, claim_C8_ordering.1 demoIds demoParse demoSched (by decide)⟩

/-- C9, witness: on the demonstration batch (one failing item among three),
the counts and failure entries instantiate as claimed. -/
theorem claim_C9_isolation_witness :
    demoSched.Perm (List.range demoIds.length) ∧
    ((_process_vehicle_ids demoIds demoParse none demoSched).succeeded +
        (_process_vehicle_ids demoIds demoParse none demoSched).failures.length =
        demoIds.length ∧
      (_process_vehicle_ids demoIds demoParse none demoSched).failures.length =
        demoIds.countP (fun v => !exceptOk (demoParse v)) ∧
      (_process_vehicle_ids demoIds demoParse none demoSched).succeeded =
        demoIds.length - demoIds.countP (fun v => !exceptOk (demoParse v)) ∧
      (_process_vehicle_ids demoIds demoParse none demoSched).failures.Perm
        ((List.range demoIds.length).filterMap (failureAt demoIds demoParse))) :=
  ⟨by decide, claim_C9_isolation demoIds demoParse none demoSched (by decide)⟩

/-! ### Extractor lemmas -/

/-- A list is a prefix of itself followed by anything. -/
theorem isPre_append_self (s t : List Char) : isPre s (s ++ t) = true := by
  induction s with
  | nil => rfl
  | cons c rest ih => simp [isPre, ih]

/-- A prefix is no longer than the text. -/
theorem isPre_length_le {s xs : List Char} (h : isPre s xs = true) :
    s.length ≤ xs.length := by
  induction s generalizing xs with
  | nil => simp
  | cons c rest ih =>
    cases xs with
    | nil => cases h
    | cons x xt =>
      simp only [isPre, Bool.and_eq_true] at h
      simpa using ih h.2

/-- A prefix of a concatenation that fits inside the left part is a prefix
of the left part. -/
theorem isPre_of_append {s a b : List Char} (h : isPre s (a ++ b) = true)
    (hl : s.length ≤ a.length) : isPre s a = true := by
  induction s generalizing a with
  | nil => rfl
  | cons c rest ih =>
    cases a with
    | nil => simp at hl
    | cons x xt =>
      simp only [List.cons_append, isPre, Bool.and_eq_true] at h
      simp only [isPre, Bool.and_eq_true]
      exact ⟨h.1, ih h.2 (by simpa using hl)⟩

/-- Unfolding of `splitFirst` on a cons cell. -/
theorem splitFirst_cons_eq (sep : List Char) (c : Char) (rest : List Char) :
    splitFirst sep (c :: rest) =
      (if isPre sep (c :: rest) = true then some ([], (c :: rest).drop sep.length)
       else
         match splitFirst sep rest with
         | some (a, b) => some (c :: a, b)
         | none => none) := rfl

/-- Unfolding of the occurrence test on a cons cell. -/
theorem containsSub_cons (sep : List Char) (c : Char) (rest : List Char) :
    containsSub sep (c :: rest) = (isPre sep (c :: rest) || containsSub sep rest) := by
  unfold containsSub
  rw [splitFirst_cons_eq]
  by_cases h : isPre sep (c :: rest) = true
  · simp [h]
  · simp only [Bool.not_eq_true] at h
    rw [if_neg (by simp [h])]
    cases hs : splitFirst sep rest with
    | none => simp [h, hs]
    | some ab => obtain ⟨a, b⟩ := ab; simp [h, hs]

/-- A match at the head is an occurrence. -/
theorem containsSub_of_isPre {sep : List Char} {c : Char} {rest : List Char}
    (h : isPre sep (c :: rest) = true) : containsSub sep (c :: rest) = true := by
  rw [containsSub_cons, h, Bool.true_or]

/-- An occurrence of a pattern makes its first character occur in the text. -/
theorem containsSub_head_mem {sep xs : List Char} {c0 : Char}
    (h : containsSub sep xs = true) (hsep : sep.head? = some c0) : c0 ∈ xs := by
  induction xs with
  | nil =>
    unfold containsSub splitFirst at h
    cases sep with
    | nil => cases hsep
    | cons s st => simp at h
  | cons x xt ih =>
    rw [containsSub_cons, Bool.or_eq_true] at h
    rcases h with h | h
    · cases sep with
      | nil => cases hsep
      | cons s st =>
        simp only [List.head?_cons, Option.some_inj] at hsep
        simp only [isPre, Bool.and_eq_true, beq_iff_eq] at h
        subst hsep
        simp [h.1]
    · exact List.mem_cons_of_mem _ (ih h)

/-- Splitting at a pattern that begins the text. -/
theorem splitFirst_self {g : Char} {s r : List Char} :
    splitFirst (g :: s) ((g :: s) ++ r) = some ([], r) := by
  cases hh : (g :: s) ++ r with
  | nil => cases hh
  | cons y yt =>
    rw [← hh]
    show splitFirst (g :: s) (g :: (s ++ r)) = some ([], r)
    rw [splitFirst, if_pos (by simpa using isPre_append_self (g :: s) r)]
    simp [List.drop_left]

/-- Splitting at the first occurrence when the pattern starts with a
character absent from the prefix: the prefix is returned whole. -/
theorem splitFirst_append_of_headChar {s0 : Char} {st a b : List Char} (ha : s0 ∉ a) :
    splitFirst (s0 :: st) (a ++ ((s0 :: st) ++ b)) = some (a, b) := by
  induction a with
  | nil => simpa using splitFirst_self
  | cons x xt ih =>
    have hxc : ¬(s0 = x) := fun he => ha (he ▸ List.mem_cons_self x xt)
    show splitFirst (s0 :: st) (x :: (xt ++ ((s0 :: st) ++ b))) = some (x :: xt, b)
    rw [splitFirst_cons_eq, if_neg (by simp [isPre, hxc]),
      ih (fun hm => ha (List.mem_cons_of_mem _ hm))]

/-- The same, phrased through `head?`. -/
theorem splitFirst_append_of_head {g : Char} {s a b : List Char}
    (hsep : s.head? = some g) (ha : g ∉ a) :
    splitFirst s (a ++ (s ++ b)) = some (a, b) := by
  cases s with
  | nil => cases hsep
  | cons s0 st =>
    have hs : s0 = g := by simpa using hsep
    rcases hs with rfl
    exact splitFirst_append_of_headChar ha

/-- No occurrence at all when the pattern head is absent from the text. -/
theorem splitFirst_none_of_head {g : Char} {s l : List Char}
    (hsep : s.head? = some g) (h : g ∉ l) : splitFirst s l = none := by
  cases s with
  | nil => cases hsep
  | cons s0 st =>
    have hs : s0 = g := by simpa using hsep
    rcases hs with rfl
    induction l with
    | nil => simp [splitFirst]
    | cons x xt ih =>
      have hxc : ¬(s0 = x) := fun he => h (he ▸ List.mem_cons_self x xt)
      rw [splitFirst_cons_eq, if_neg (by simp [isPre, hxc]),
        ih (fun hm => h (List.mem_cons_of_mem _ hm))]

/-- Splitting a single-character separator appended after a clean prefix. -/
theorem splitFirst_single_append {c : Char} {a b : List Char} (h : c ∉ a) :
    splitFirst [c] (a ++ c :: b) = some (a, b) := by
  have : a ++ c :: b = a ++ ([c] ++ b) := by simp
  rw [this]
  exact splitFirst_append_of_head (by rfl) h

/-- A script start tag cannot straddle the boundary before a `<`: a match
beginning inside `q` and reaching into `'<' :: …` is impossible, because no
character of the tag other than its head is `<`.  So a match on `q ++ t`
with `q` non-empty is a match on `q`. -/
theorem isPre_openTag_span {q t : List Char} (hq : q ≠ []) (ht : t.head? = some '<')
    (h : isPre openTagChars (q ++ t) = true) : isPre openTagChars q = true := by
  obtain ⟨t', rfl⟩ : ∃ t', t = '<' :: t' := by
    cases t with
    | nil => cases ht
    | cons a t' =>
      have ha : a = '<' := by simpa using ht
      exact ⟨t', by rw [ha]⟩
  rcases q with _ | ⟨a, _ | ⟨b, _ | ⟨c, _ | ⟨d, _ | ⟨e, _ | ⟨f, _ | ⟨g, q'⟩⟩⟩⟩⟩⟩⟩
  · exact absurd rfl hq
  · simp [openTagChars, isPre] at h
  · simp [openTagChars, isPre] at h
  · simp [openTagChars, isPre] at h
  · simp [openTagChars, isPre] at h
  · simp [openTagChars, isPre] at h
  · simp [openTagChars, isPre] at h
  · simp [openTagChars, isPre] at h ⊢
    tauto

/-- The analogous straddling argument for the `</script>` end tag. -/
theorem isPre_closeTag_span {q t : List Char} (hq : q ≠ []) (ht : t.head? = some '<')
    (h : isPre closeTagChars (q ++ t) = true) : isPre closeTagChars q = true := by
  obtain ⟨t', rfl⟩ : ∃ t', t = '<' :: t' := by
    cases t with
    | nil => cases ht
    | cons a t' =>
      have ha : a = '<' := by simpa using ht
      exact ⟨t', by rw [ha]⟩
  rcases q with _ | ⟨a, _ | ⟨b, _ | ⟨c, _ | ⟨d, _ | ⟨e, _ | ⟨f, _ | ⟨g, _ | ⟨h8, _ | ⟨h9, q'⟩⟩⟩⟩⟩⟩⟩⟩⟩
  · exact absurd rfl hq
  · simp [closeTagChars, isPre] at h
  · simp [closeTagChars, isPre] at h
  · simp [closeTagChars, isPre] at h
  · simp [closeTagChars, isPre] at h
  · simp [closeTagChars, isPre] at h
  · simp [closeTagChars, isPre] at h
  · simp [closeTagChars, isPre] at h
  · simp [closeTagChars, isPre] at h
  · simp [closeTagChars, isPre] at h ⊢
    tauto

/-- Unfolding of the scanner on a cons cell with positive fuel. -/
theorem scanGo_succ_cons (fuel : Nat) (c : Char) (rest : List Char) :
    scanGo (fuel + 1) (c :: rest) =
      (if isScriptOpen (c :: rest) then
        match splitFirst ['>'] ((c :: rest).drop 7) with
        | none => []
        | some (_, afterTag) =>
          match splitFirst closeTagChars afterTag with
          | none => []
          | some (body, rest2) =>
            let tail := scanGo fuel rest2
            if containsSub markerChars body then body :: tail else tail
      else scanGo fuel rest) := rfl

/-- The scanner walks through a prefix free of script start tags, one fuel
unit per character, when the remainder begins with a `<`. -/
theorem scanGo_through_pre :
    ∀ (pre tail : List Char) (fuel : Nat), containsSub openTagChars pre = false →
      tail.head? = some '<' →
      scanGo (pre.length + fuel) (pre ++ tail) = scanGo fuel tail := by
  intro pre
  induction pre with
  | nil => intro tail fuel _ _; simp
  | cons c pre' ih =>
    intro tail fuel h ht
    rw [containsSub_cons] at h
    simp only [Bool.or_eq_false_iff] at h
    have hno : isScriptOpen (c :: (pre' ++ tail)) = false := by
      unfold isScriptOpen
      cases hp : isPre openTagChars (c :: (pre' ++ tail)) with
      | false => rfl
      | true =>
        have hps := isPre_openTag_span (q := c :: pre') (List.cons_ne_nil c pre') ht
          (by simpa using hp)
        rw [h.1] at hps
        cases hps
    show scanGo (pre'.length + 1 + fuel) (c :: (pre' ++ tail)) = scanGo fuel tail
    rw [show pre'.length + 1 + fuel = (pre'.length + fuel) + 1 by omega]
    rw [scanGo_succ_cons, if_neg (by simp [hno])]
    exact ih tail fuel h.2 ht

/-- The scanner finds nothing in text free of script start tags. -/
theorem scanGo_no_scripts :
    ∀ (xs : List Char) (fuel : Nat), containsSub openTagChars xs = false →
      scanGo fuel xs = [] := by
  intro xs
  induction xs with
  | nil => intro fuel _; cases fuel <;> rfl
  | cons c rest ih =>
    intro fuel h
    rw [containsSub_cons] at h
    simp only [Bool.or_eq_false_iff] at h
    cases fuel with
    | zero => rfl
    | succ f =>
      have hno : isScriptOpen (c :: rest) = false := by
        unfold isScriptOpen
        rw [h.1]
        rfl
      rw [scanGo_succ_cons, if_neg (by simp [hno])]
      exact ih f h.2

/-- Splitting at the closing tag after a body free of it. -/
theorem splitFirst_closeTag :
    ∀ (body post : List Char), containsSub closeTagChars body = false →
      splitFirst closeTagChars (body ++ (closeTagChars ++ post)) = some (body, post) := by
  intro body post
  induction body with
  | nil => intro _; simpa using splitFirst_self
  | cons x body' ih =>
    intro hbody
    rw [containsSub_cons] at hbody
    simp only [Bool.or_eq_false_iff] at hbody
    have hno : isPre closeTagChars (x :: (body' ++ (closeTagChars ++ post))) = false := by
      cases hp : isPre closeTagChars (x :: (body' ++ (closeTagChars ++ post))) with
      | false => rfl
      | true =>
        have hps := isPre_closeTag_span (q := x :: body')
          (t := closeTagChars ++ post) (List.cons_ne_nil x body')
          (by rfl) (by simpa using hp)
        rw [hbody.1] at hps
        cases hps
    show splitFirst closeTagChars (x :: (body' ++ (closeTagChars ++ post))) = _
    rw [splitFirst_cons_eq, if_neg (by simp [hno]), ih hbody.2]

/-- The literal `<script>` start tag. -/
def scriptOpenTag : List Char := ['<', 's', 'c', 'r', 'i', 'p', 't', '>']

/-- On markup made of a start-tag-free prefix, one plain script element and a
start-tag-free suffix, the collector returns exactly that script body (when
it contains the marker and no closing tag). -/
theorem scanScripts_single (pre body post : List Char)
    (hpre : containsSub openTagChars pre = false)
    (hpost : containsSub openTagChars post = false)
    (hbody : containsSub closeTagChars body = false)
    (hmark : containsSub markerChars body = true) :
    scanScripts (pre ++ (scriptOpenTag ++ (body ++ (closeTagChars ++ post)))) = [body] := by
  unfold scanScripts
  have hhead : (scriptOpenTag ++ (body ++ (closeTagChars ++ post))).head? = some '<' := rfl
  rw [List.length_append, Nat.add_assoc, scanGo_through_pre _ _ _ hpre hhead]
  show scanGo ((scriptOpenTag ++ (body ++ (closeTagChars ++ post))).length + 1)
      ('<' :: (['s', 'c', 'r', 'i', 'p', 't', '>'] ++ (body ++ (closeTagChars ++ post)))) =
    [body]
  have hopen : isScriptOpen
      ('<' :: (['s', 'c', 'r', 'i', 'p', 't', '>'] ++ (body ++ (closeTagChars ++ post)))) =
      true := by
    simp [isScriptOpen, isPre, openTagChars, isTagNameChar]
  rw [scanGo_succ_cons, if_pos hopen]
  simp only [List.drop_succ_cons, List.cons_append, List.nil_append, List.drop_zero]
  have hgt : splitFirst ['>'] ('>' :: (body ++ (closeTagChars ++ post))) =
      some ([], body ++ (closeTagChars ++ post)) := by
    simpa using splitFirst_self (g := '>') (s := []) (r := body ++ (closeTagChars ++ post))
  simp only [hgt]
  simp only [splitFirst_closeTag body post hbody]
  simp only [hmark, if_true]
  rw [scanGo_no_scripts post _ hpost]

/-- The assignment prefix `window.` of the embedded-state script. -/
def assignPre : List Char := ['w', 'i', 'n', 'd', 'o', 'w', '.']

/-- The ` = ` between the marker and the JSON text. -/
def eqPart : List Char := [' ', '=', ' ']

/-- The canonical embedded-state script body:
`window.__PRELOADED_STATE__ = <json>;`. -/
def scriptBody (json : List Char) : List Char :=
  assignPre ++ (markerChars ++ (eqPart ++ (json ++ [';'])))

/-- Well-formed markup with one embedded-state script element between a
prefix and a suffix. -/
def mkMarkup (pre json post : List Char) : List Char :=
  pre ++ (scriptOpenTag ++ (scriptBody json ++ (closeTagChars ++ post)))

/-- Stripping does not touch a text that starts and ends with
non-whitespace. -/
theorem pstrip_sandwich {c1 c2 : Char} {mid : List Char}
    (h1 : isPyWs c1 = false) (h2 : isPyWs c2 = false) :
    pstrip (c1 :: (mid ++ [c2])) = c1 :: (mid ++ [c2]) := by
  unfold pstrip
  rw [List.dropWhile_cons, if_neg (by simp [h1])]
  rw [show (c1 :: (mid ++ [c2])).reverse = c2 :: (mid.reverse ++ [c1]) by
    simp [List.reverse_cons, List.reverse_append]]
  rw [List.dropWhile_cons, if_neg (by simp [h2])]
  simp [List.reverse_cons, List.reverse_append]

/-- On the canonical script body, `_extract_json` isolates exactly the JSON
text: the `;` cut hits the statement terminator because the JSON itself
contains no `;`. -/
theorem extractBlob_canonical {json json' : List Char} (hj : json = '{' :: json')
    (hlt : '<' ∉ json) (hsemi : ';' ∉ json) (hstrip : pstrip json = json) :
    extractBlob (scriptBody json) = some json := by
  have h1 : splitFirst markerChars
      (assignPre ++ (markerChars ++ (eqPart ++ (json ++ [';'])))) =
      some (assignPre, eqPart ++ (json ++ [';'])) :=
    splitFirst_append_of_head (g := '_') rfl (by decide)
  have h2 : splitFirst ['='] (' ' :: '=' :: ' ' :: (json ++ [';'])) =
      some ([' '], ' ' :: (json ++ [';'])) := by
    simpa using splitFirst_append_of_head (g := '=') (s := ['='])
      (a := [' ']) (b := ' ' :: (json ++ [';'])) rfl (by decide)
  have h3 : splitFirst ['{'] (' ' :: (json ++ [';'])) =
      some ([' '], json' ++ [';']) := by
    rw [hj]
    simpa using splitFirst_append_of_head (g := '{') (s := ['{'])
      (a := [' ']) (b := json' ++ [';']) rfl (by decide)
  have hblob : '{' :: (json' ++ [';']) = json ++ [';'] := by
    rw [hj]
    simp
  have h4 : splitFirst closeTagChars (json ++ [';']) = none := by
    refine splitFirst_none_of_head (g := '<') rfl ?_
    simp only [List.mem_append, List.mem_singleton]
    rintro (hm | hm)
    · exact hlt hm
    · cases hm
  have h5 : pstrip (json ++ [';']) = json ++ [';'] := by
    rw [hj, List.cons_append]
    exact pstrip_sandwich (by decide) (by decide)
  have h6 : splitFirst [';'] (json ++ [';']) = some (json, []) := by
    simpa using splitFirst_single_append (b := []) hsemi
  unfold extractBlob scriptBody partitionAfter
  rw [h1]
  simp only [eqPart, List.cons_append, List.nil_append]
  simp only [h2]
  simp only [h3]
  rw [hblob]
  simp only [h4]
  rw [h5]
  simp only [h6]
  rw [hstrip]

/-- On the canonical script body with decodable JSON under the size cap,
`_extract_json` succeeds with the decoded state. -/
theorem _extract_json_canonical {json json' : List Char} {v : Json}
    (hj : json = '{' :: json') (hlt : '<' ∉ json) (hsemi : ';' ∉ json)
    (hstrip : pstrip json = json) (hlen : json.length ≤ MAX_STATE_CHARS)
    (hparse : jparse json = some v) :
    _extract_json (scriptBody json) = Except.ok v := by
  unfold _extract_json
  simp only [extractBlob_canonical hj hlt hsemi hstrip]
  rw [if_neg (by omega)]
  simp only [hparse]

/-- C3, counterexample.  A well-formed page with exactly one marked script
block whose JSON is valid and contains the required nested path, but whose
text holds a `";"` inside a string value: the `";"` cut truncates the blob
mid-string and extraction fails, where the claim asserts success. -/
def ceState : Json :=
  Json.obj [("cars", Json.obj [("base", Json.obj
    [("category", Json.obj []), ("advertisement", Json.obj []),
     ("spec", Json.obj []), ("manage", Json.obj []),
     ("condition", Json.obj []), ("vin", Json.str "a;b")])])]

/-- The JSON text of the counterexample state. -/
def ceJson : List Char := render ceState

/-- The counterexample page. -/
def ceHtml : List Char := mkMarkup [] ceJson []

/-- C3, counterexample: the embedded JSON alone decodes to a state with the
required shape, yet `extract_preloaded_state` fails on the page because the
JSON contains `";"` inside a string. -/
theorem claim_C3_counterexample :
    jparse ceJson = some ceState ∧
    specRequiredShape ceState = true ∧
    ';' ∈ ceJson ∧
    extract_preloaded_state ceHtml =
      Except.error "Failed to decode preloaded state: invalid JSON" :=
  ⟨rfl, rfl, by decide, rfl⟩

/-- C3, amended.  For well-formed markup holding exactly one script block
with the marker and a valid JSON assignment — the text outside the script
element free of script start tags and the JSON text free of `"<"` and of
`";"` (the statement-terminator cut forbids a `";"` anywhere in the JSON,
including inside string values), unpadded, within the size cap — extraction
succeeds and returns the decoded state. -/
theorem claim_C3_amended :
    ∀ (pre post json json' : List Char) (v : Json),
      json = '{' :: json' →
      containsSub openTagChars pre = false →
      containsSub openTagChars post = false →
      '<' ∉ json → ';' ∉ json →
      pstrip json = json →
      json.length ≤ MAX_STATE_CHARS →
      jparse json = some v →
      extract_preloaded_state (mkMarkup pre json post) = Except.ok v := by
  intro pre post json json' v hj hpre hpost hlt hsemi hstrip hlen hparse
  have hltb : '<' ∉ scriptBody json := by
    intro hm
    simp [scriptBody, assignPre, markerChars, eqPart, List.mem_append, List.mem_cons] at hm
    exact hlt hm
  have hcloseb : containsSub closeTagChars (scriptBody json) = false := by
    cases hc : containsSub closeTagChars (scriptBody json) with
    | false => rfl
    | true => exact absurd (containsSub_head_mem hc rfl) hltb
  have hmark : containsSub markerChars (scriptBody json) = true := by
    unfold containsSub scriptBody
    rw [splitFirst_append_of_head (g := '_') (s := markerChars)
      (a := assignPre) (b := eqPart ++ (json ++ [';'])) rfl (by decide)]
    rfl
  have hscan := scanScripts_single pre (scriptBody json) post hpre hpost hcloseb hmark
  unfold extract_preloaded_state
  simp only [mkMarkup] at *
  simp only [hscan]
  unfold _extract_loop
  simp only [_extract_json_canonical hj hlt hsemi hstrip hlen hparse]

/-- The JSON text used to instantiate the amended extraction claim. -/
def wJson : List Char := render (Json.obj [("a", Json.int 1)])

/-- C3, witness: a small page with prefix and suffix markup around one
embedded-state script satisfies every hypothesis and extracts to its
state. -/
theorem claim_C3_amended_witness :
    (wJson = '{' :: wJson.tail ∧
      containsSub openTagChars "<html><body>".toList = false ∧
      containsSub openTagChars "</body></html>".toList = false ∧
      '<' ∉ wJson ∧ ';' ∉ wJson ∧ pstrip wJson = wJson ∧
      wJson.length ≤ MAX_STATE_CHARS ∧
      jparse wJson = some (Json.obj [("a", Json.int 1)])) ∧
    extract_preloaded_state
        (mkMarkup "<html><body>".toList wJson "</body></html>".toList) =
      Except.ok (Json.obj [("a", Json.int 1)]) :=
  ⟨⟨rfl, by decide, by decide, by decide, by decide, rfl, by decide, rfl⟩,
   claim_C3_amended _ _ _ _ _ rfl (by decide) (by decide) (by decide) (by decide)
     rfl (by decide) rfl⟩

/-- The message of a failed extraction. -/
def errOf : Except String Json → String
  | Except.error e => e
  | Except.ok _ => ""

/-- The candidate loop fails exactly when every candidate fails. -/
theorem _extract_loop_fails_iff :
    ∀ (cs : List (List Char)) (last : Option String),
      exceptOk (_extract_loop cs last) = false ↔
        ∀ c ∈ cs, exceptOk (_extract_json c) = false := by
  intro cs
  induction cs with
  | nil => intro last; simp [_extract_loop, exceptOk]
  | cons c rest ih =>
    intro last
    cases hx : _extract_json c with
    | ok v => simp [_extract_loop, hx, exceptOk]
    | error e =>
      have he : _extract_loop (c :: rest) last = _extract_loop rest (some e) := by
        show (match _extract_json c with
          | Except.ok v => Except.ok v
          | Except.error e => _extract_loop rest (some e)) = _extract_loop rest (some e)
        rw [hx]
      rw [he, ih (some e)]
      simp [List.forall_mem_cons, hx, exceptOk]

/-- The candidate loop returns the first success in document order. -/
theorem _extract_loop_first_success :
    ∀ (cs1 : List (List Char)) (c : List Char) (cs2 : List (List Char))
      (last : Option String) (v : Json),
      (∀ c' ∈ cs1, exceptOk (_extract_json c') = false) →
      _extract_json c = Except.ok v →
      _extract_loop (cs1 ++ c :: cs2) last = Except.ok v := by
  intro cs1
  induction cs1 with
  | nil => intro c cs2 last v _ hok; simp [_extract_loop, hok]
  | cons x xt ih =>
    intro c cs2 last v hall hok
    have hx : exceptOk (_extract_json x) = false := hall x (List.mem_cons_self _ _)
    cases hxx : _extract_json x with
    | ok w =>
      rw [hxx] at hx
      simp [exceptOk] at hx
    | error e =>
      show _extract_loop (x :: (xt ++ c :: cs2)) last = _
      unfold _extract_loop
      simp only [hxx]
      exact ih c cs2 (some e) v (fun c' hc' => hall c' (List.mem_cons_of_mem _ hc')) hok

/-- When every candidate fails, the loop fails with the message of the last
candidate's error. -/
theorem _extract_loop_last_error :
    ∀ (init : List (List Char)) (clast : List Char) (last : Option String),
      (∀ c ∈ init ++ [clast], exceptOk (_extract_json c) = false) →
      _extract_loop (init ++ [clast]) last =
        Except.error (errOf (_extract_json clast)) := by
  intro init
  induction init with
  | nil =>
    intro clast last hall
    have hx : exceptOk (_extract_json clast) = false := hall clast (by simp)
    cases hxx : _extract_json clast with
    | ok w =>
      rw [hxx] at hx
      simp [exceptOk] at hx
    | error e => simp [_extract_loop, hxx, errOf]
  | cons x xt ih =>
    intro clast last hall
    have hx : exceptOk (_extract_json x) = false := hall x (by simp)
    cases hxx : _extract_json x with
    | ok w =>
      rw [hxx] at hx
      simp [exceptOk] at hx
    | error e =>
      show _extract_loop (x :: (xt ++ [clast])) last = _
      unfold _extract_loop
      simp only [hxx]
      exact ih clast (some e) (fun c' hc' => hall c' (List.mem_cons_of_mem _ hc'))

/-- C4.  Extraction fails exactly when no script block contains the marker
or every candidate fails (its JSON text missing, malformed, or over the
5,000,000-character cap); candidates are attempted in document order with
the first success returned, and when all fail the reported failure carries
the last candidate's error. -/
theorem claim_C4_failure_modes :
    (∀ html, scanScripts html = [] →
      extract_preloaded_state html = Except.error "Preloaded state marker not found.") ∧
    (∀ html, exceptOk (extract_preloaded_state html) = false ↔
      (scanScripts html = [] ∨ ∀ c ∈ scanScripts html, exceptOk (_extract_json c) = false)) ∧
    (∀ cs1 c cs2 last v, (∀ c' ∈ cs1, exceptOk (_extract_json c') = false) →
      _extract_json c = Except.ok v →
      _extract_loop (cs1 ++ c :: cs2) last = Except.ok v) ∧
    (∀ init clast last, (∀ c ∈ init ++ [clast], exceptOk (_extract_json c) = false) →
      _extract_loop (init ++ [clast]) last =
        Except.error (errOf (_extract_json clast))) ∧
    (∀ body, extractBlob body = none →
      _extract_json body = Except.error "Preloaded state JSON payload not found.") ∧
    (∀ body blob, extractBlob body = some blob → blob.length > MAX_STATE_CHARS →
      _extract_json body = Except.error "Preloaded state payload too large.") ∧
    (∀ body blob, extractBlob body = some blob → blob.length ≤ MAX_STATE_CHARS →
      jparse blob = none →
      _extract_json body = Except.error "Failed to decode preloaded state: invalid JSON") ∧
    (∀ body blob v, extractBlob body = some blob → blob.length ≤ MAX_STATE_CHARS →
      jparse blob = some v → _extract_json body = Except.ok v) := by
  refine ⟨?_, ?_, _extract_loop_first_success, _extract_loop_last_error, ?_, ?_, ?_, ?_⟩
  · intro html h
    unfold extract_preloaded_state
    simp only [h]
  · intro html
    unfold extract_preloaded_state
    cases hs : scanScripts html with
    | nil => simp [exceptOk]
    | cons c cs =>
      simp only [hs]
      rw [_extract_loop_fails_iff (c :: cs) none]
      simp
  · intro body h
    unfold _extract_json
    simp only [h]
  · intro body blob h hlen
    unfold _extract_json
    simp only [h]
    rw [if_pos hlen]
  · intro body blob h hlen hparse
    unfold _extract_json
    simp only [h]
    rw [if_neg (by omega)]
    simp only [hparse]
  · intro body blob v h hlen hparse
    unfold _extract_json
    simp only [h]
    rw [if_neg (by omega)]
    simp only [hparse]

/-- A script body with no marker payload: its candidate JSON is missing. -/
def badBody : List Char := "var x = 1".toList

/-- A script body with a decodable payload. -/
def goodBody : List Char := scriptBody (render (Json.obj [("b", Json.int 2)]))

/-- C4, witness: with a failing candidate before a decodable one, the loop
returns the decodable candidate's state. -/
theorem claim_C4_failure_modes_witness :
    (∀ c' ∈ [badBody], exceptOk (_extract_json c') = false) ∧
    _extract_json goodBody = Except.ok (Json.obj [("b", Json.int 2)]) ∧
    _extract_loop ([badBody] ++ goodBody :: []) none =
      Except.ok (Json.obj [("b", Json.int 2)]) :=
  ⟨by decide, rfl,
   claim_C4_failure_modes.2.2.1 [badBody] goodBody [] none _ (by decide) rfl⟩

end Encar

